import Mathlib

/-!
# flux-bridge: the Flux controller driver

A shallow embedding of `internal/controller/controller.go` (`Diff`, `Apply`,
`Delete`, `waitForCurrentStatus`, `isStalled`).

The controller talks to three collaborators that live outside the repository:
the Kubernetes API (`client.Client`), the Flux artifact storage
(`gotkstorage.Storage`) and the operating system (`os`). Every call to one of
them is an operation `Op`; a controller method is a program `Prog` that issues
operations and continues on their answers. A program is run against a
`Handler`, any function that answers operations over some world; the run
records the operations issued and the error each one answered with.

Two kinds of statements are made: statements for every handler (whatever the
backend answers), and statements over `cluster`, a model of an API server
object store together with an artifact store.
-/

namespace FluxBridge

/-! ## Data model -/

/-- Contents of a file: Go `[]byte`. -/
abbrev Bytes := List UInt8

/-- Go `error` values the controller meets. `notFound` are the errors for which
`apierrors.IsNotFound` holds; `canceled` and `deadlineExceeded` are the two
context errors; `new` is `errors.New`; `interrupted` is
`wait.ErrorInterrupted (fmt.Errorf ...)`; `other` is any other error of the
backend, the storage or the operating system. -/
inductive Err where
  | notFound (msg : String)
  | canceled
  | deadlineExceeded
  | new (msg : String)
  | interrupted (msg : String)
  | other (msg : String)
  deriving DecidableEq, Repr

/-- Go `apierrors.IsNotFound`. -/
def Err.isNotFound : Err → Bool
  | .notFound _ => true
  | _ => false

/-- Go `metav1.Condition` (the fields the controller reads or writes). -/
structure Condition where
  type : String
  status : String
  reason : String := ""
  message : String := ""
  observedGeneration : Nat := 0
  deriving DecidableEq, Repr

/-- Go `meta.Artifact`. -/
structure Artifact where
  path : String
  url : String
  revision : String
  digest : String := ""
  size : Option Nat := none
  deriving DecidableEq, Repr

/-- Go `scv1.ExternalArtifactStatus`. -/
structure ExternalArtifactStatus where
  artifact : Option Artifact := none
  conditions : List Condition := []
  deriving DecidableEq, Repr

/-- Go `scv1.ExternalArtifact`. -/
structure ExternalArtifact where
  name : String
  ns : String
  labels : List (String × String) := []
  generation : Nat := 0
  status : ExternalArtifactStatus := {}
  deriving DecidableEq, Repr

/-- Go `kcv1.CrossNamespaceSourceReference`. -/
structure SourceRef where
  kind : String := ""
  name : String := ""
  ns : String := ""
  deriving DecidableEq, Repr

/-- Go `kcv1.KustomizationSpec` (durations in seconds; `timeout = 0` when unset). -/
structure KustomizationSpec where
  interval : Nat := 0
  timeout : Nat := 0
  wait : Bool := false
  prune : Bool := false
  sourceRef : SourceRef := {}
  deriving DecidableEq, Repr

/-- Go `kcv1.KustomizationStatus`. -/
structure KustomizationStatus where
  observedGeneration : Option Nat := none
  lastAppliedRevision : String := ""
  lastAttemptedRevision : String := ""
  conditions : List Condition := []
  deriving DecidableEq, Repr

/-- Go `kcv1.Kustomization`. -/
structure Kustomization where
  name : String
  ns : String
  labels : List (String × String) := []
  generation : Nat := 0
  deleting : Bool := false
  spec : KustomizationSpec := {}
  status : KustomizationStatus := {}
  deriving DecidableEq, Repr

/-- Go `kstatus.Status`. -/
inductive KStatus where
  | inProgress
  | failed
  | current
  | terminating
  | notFound
  | unknown
  deriving DecidableEq, Repr

/-- Go `Status.String()`. -/
def KStatus.toString : KStatus → String
  | .inProgress => "InProgress"
  | .failed => "Failed"
  | .current => "Current"
  | .terminating => "Terminating"
  | .notFound => "NotFound"
  | .unknown => "Unknown"

def ManagedByLabelKey : String := "app.kubernetes.io/managed-by"
def ControllerName : String := "flux-bridge"
def dataFileName : String := "data.yaml"
/-- Seconds between two polls (`2 * time.Second`). -/
def pollInterval : Nat := 2

/-- Go `FluxController`: the namespace it works in, and of its storage the
host name the artifact URLs are built from. -/
structure FluxController where
  ns : String
  hostname : String
  deriving DecidableEq, Repr

/-! ## Operations on the collaborators -/

/-- One call to the Kubernetes client, the artifact storage, the operating
system, `kstatus.Compute`, or one wait of the poll loop. -/
inductive Op where
  /-- Call `kubeClient.Get` of a Kustomization -/
  | getKust (ns name : String)
  /-- Call `kubeClient.Get` of an ExternalArtifact -/
  | getEA (ns name : String)
  /-- Call `kubeClient.Patch (client.Apply, force)` of an ExternalArtifact -/
  | patchEA (ea : ExternalArtifact)
  /-- Call `kubeClient.Status().Patch (client.Apply)` of an ExternalArtifact -/
  | patchEAStatus (ea : ExternalArtifact)
  /-- Call `kubeClient.Patch (client.Apply, force)` of a Kustomization -/
  | patchKust (k : Kustomization)
  /-- Call `kubeClient.Delete` of a Kustomization -/
  | deleteKust (ns name : String)
  /-- Call `kubeClient.Delete` of an ExternalArtifact -/
  | deleteEA (ns name : String)
  /-- Call `os.MkdirTemp ("", "")` -/
  | mkdirTemp
  /-- Call `os.WriteFile` -/
  | writeFile (path : String) (data : Bytes)
  /-- Call `os.ReadFile` -/
  | readFile (path : String)
  /-- Deferred `os.RemoveAll` of a temporary directory -/
  | osRemoveAll (path : String)
  /-- Call `storage.MkdirAll` -/
  | mkdirAll (a : Artifact)
  /-- Call `storage.Archive` of a directory into the artifact -/
  | archive (a : Artifact) (dir : String)
  /-- Call `storage.ArtifactExist` -/
  | artifactExist (a : Artifact)
  /-- Call `storage.CopyToPath` of one file of the archive -/
  | copyToPath (a : Artifact) (file dest : String)
  /-- Call `storage.GarbageCollect`, with its timeout in seconds -/
  | garbageCollect (a : Artifact) (timeout : Nat)
  /-- Call `storage.RemoveAll` -/
  | removeAll (a : Artifact)
  /-- Call `kstatus.Compute` of the unstructured Kustomization -/
  | kstatus (k : Kustomization)
  /-- The `select` of the poll loop: the interval elapses, or the context is done -/
  | tick
  deriving DecidableEq, Repr

/-- What an operation answers. `patchEA` answers the generation of the object
the server holds; `archive` the digest and size it computed; `tick` the
context's error once the context is done. -/
def Op.Resp : Op → Type
  | .getKust _ _ => Except Err Kustomization
  | .getEA _ _ => Except Err ExternalArtifact
  | .patchEA _ => Except Err Nat
  | .patchEAStatus _ => Option Err
  | .patchKust _ => Option Err
  | .deleteKust _ _ => Option Err
  | .deleteEA _ _ => Option Err
  | .mkdirTemp => Except Err String
  | .writeFile _ _ => Option Err
  | .readFile _ => Except Err Bytes
  | .osRemoveAll _ => Unit
  | .mkdirAll _ => Option Err
  | .archive _ _ => Except Err (String × Nat)
  | .artifactExist _ => Bool
  | .copyToPath _ _ _ => Option Err
  | .garbageCollect _ _ => Option Err
  | .removeAll _ => Option Err
  | .kstatus _ => KStatus
  | .tick => Option Err

/-- The error an answer carries, if any. -/
def Op.errOf : (o : Op) → o.Resp → Option Err
  | .getKust _ _, r => match r with | .error e => some e | .ok _ => none
  | .getEA _ _, r => match r with | .error e => some e | .ok _ => none
  | .patchEA _, r => match r with | .error e => some e | .ok _ => none
  | .patchEAStatus _, r => r
  | .patchKust _, r => r
  | .deleteKust _ _, r => r
  | .deleteEA _ _, r => r
  | .mkdirTemp, r => match r with | .error e => some e | .ok _ => none
  | .writeFile _ _, r => r
  | .readFile _, r => match r with | .error e => some e | .ok _ => none
  | .osRemoveAll _, _ => none
  | .mkdirAll _, r => r
  | .archive _ _, r => match r with | .error e => some e | .ok _ => none
  | .artifactExist _, _ => none
  | .copyToPath _ _ _, r => r
  | .garbageCollect _ _, r => r
  | .removeAll _, r => r
  | .kstatus _, _ => none
  | .tick, r => r

/-! ## Programs and their runs -/

/-- A program: it returns, or issues an operation and continues on the answer. -/
inductive Prog (α : Type) where
  | ret (a : α) : Prog α
  | op (o : Op) (k : o.Resp → Prog α) : Prog α

/-- Sequencing of programs. -/
def Prog.bind {α β : Type} : Prog α → (α → Prog β) → Prog β
  | .ret a, f => f a
  | .op o k, f => .op o (fun r => (k r).bind f)

instance : Monad Prog where
  pure := Prog.ret
  bind := Prog.bind

/-- Issue one operation and return its answer. -/
def call (o : Op) : Prog o.Resp := .op o .ret

/-- A backend: it answers every operation and moves to a next world. -/
abbrev Handler (W : Type) := (o : Op) → W → o.Resp × W

/-- One entry of a run's record: the operation and the error it answered. -/
structure Event where
  op : Op
  err : Option Err
  deriving DecidableEq, Repr

/-- Outcome of a run: the value returned, the final world, the record. -/
structure Res (W α : Type) where
  val : α
  world : W
  trace : List Event

/-- Run a program against a handler from a world. -/
def run {W α : Type} (h : Handler W) : Prog α → W → Res W α
  | .ret a, w => ⟨a, w, []⟩
  | .op o k, w =>
    let r := run h (k (h o w).1) (h o w).2
    ⟨r.val, r.world, ⟨o, o.errOf (h o w).1⟩ :: r.trace⟩

/-! ## The controller -/

/-- Go `strings.Split (path, "/")` on the characters of a path: the elements
between the slashes, empty ones included. -/
def splitSlash : List Char → List (List Char)
  | [] => [[]]
  | ch :: rest =>
    if ch = '/' then [] :: splitSlash rest
    else
      match splitSlash rest with
      | [] => [[ch]]
      | e :: es => (ch :: e) :: es

/-- One element of the loop of Go `path.Clean`, on the elements written so far
(the last one first): an empty element and `.` are skipped; `..` removes the
last element written, is written itself when there is none to remove (or only
`..` elements) and the path is not rooted, and is dropped at the root; any
other element is written. -/
def cleanStep (rooted : Bool) (stack : List (List Char)) (e : List Char) : List (List Char) :=
  if e = [] ∨ e = ['.'] then stack
  else if e = ['.', '.'] then
    match stack with
    | [] => if rooted then [] else [e]
    | top :: rest => if top = ['.', '.'] then e :: stack else rest
  else e :: stack

/-- The elements with one slash between each two. -/
def joinSlash : List (List Char) → List Char
  | [] => []
  | [e] => e
  | e :: es => e ++ '/' :: joinSlash es

/-- Go `path.Clean`: the shortest path naming the same place, by dropping
empty and `.` elements and resolving `..` elements; the empty path and a
relative path that resolves to nothing give `.`. -/
def pathClean (p : String) : String :=
  if p.data = [] then "."
  else
    let rooted := p.data.head? = some '/'
    let body := joinSlash ((splitSlash p.data).foldl (cleanStep rooted) []).reverse
    if rooted then String.mk ('/' :: body)
    else if body = [] then "." else String.mk body

/-- Go `path.Join (elem...)` (and `filepath.Join` where the separator is the
slash): the empty elements are ignored, the others are joined with slashes and
the result is cleaned; with no element left the result is empty. -/
def pathJoinList (elems : List String) : String :=
  let parts := (elems.map String.data).filter (fun e => e ≠ [])
  if parts = [] then "" else pathClean (String.mk (joinSlash parts))

/-- Go `filepath.Join (a, b)`. -/
def pathJoin (a b : String) : String := pathJoinList [a, b]

/-- A path element that `path.Clean` keeps as it is: not empty, without a
slash, and neither `.` nor `..`. -/
def plainChars (e : List Char) : Prop :=
  e ≠ [] ∧ '/' ∉ e ∧ e ≠ ['.'] ∧ e ≠ ['.', '.']

instance : DecidablePred plainChars := fun e => by unfold plainChars; infer_instance

/-- A text that is one plain path element. -/
def plainElem (s : String) : Prop := plainChars s.data

instance : DecidablePred plainElem := fun s => by unfold plainElem; infer_instance

/-- Go `strings.TrimLeft (path, "/")`. -/
def trimLeftSlash (path : String) : String :=
  String.mk (path.data.dropWhile (fun ch => ch = '/'))

/-- Whether a host name carries a scheme: Go
`strings.HasPrefix (h, "http://") || strings.HasPrefix (h, "https://")`. -/
def hasScheme (hostname : String) : Bool :=
  "http://".data.isPrefixOf hostname.data || "https://".data.isPrefixOf hostname.data

/-- Go `Storage.SetArtifactURL`: nothing for an empty path; else the host
name, after `http://` unless it carries a scheme, a slash, and the path without
leading slashes. -/
def artifactURL (hostname path : String) : String :=
  if path = "" then ""
  else if hasScheme hostname then hostname ++ "/" ++ trimLeftSlash path
  else "http://" ++ hostname ++ "/" ++ trimLeftSlash path

/-- Go `storage.NewArtifactFor`: the path is
`path.Join (strings.ToLower (kind), namespace, name, fileName)` (the library's
`ArtifactPath`) and the URL is set by `SetArtifactURL`. -/
def NewArtifactFor (c : FluxController) (kind ns name revision fileName : String) : Artifact :=
  let path := pathJoinList [String.mk (kind.data.map Char.toLower), ns, name, fileName]
  { path := path, url := artifactURL c.hostname path, revision := revision }

/-- Go `isStalled`: the message of the first condition of type `Stalled` with
status `True`, as an error. -/
def isStalled (kust : Kustomization) : Option Err :=
  go kust.status.conditions
where
  go : List Condition → Option Err
    | [] => none
    | cond :: rest =>
      if cond.type = "Stalled" ∧ cond.status = "True" then some (Err.new cond.message)
      else go rest

/-- Go `wait.PollUntilContextCancel (ctx, interval, true, condition)`: the
condition runs at once; while it answers neither done nor an error the loop
waits one interval (`tick`), stops with the context's error when the context
is done, and runs the condition again. `fuel` bounds the number of condition
runs; `none` says the loop was still going when the fuel ran out. -/
def pollUntilContextCancel (condition : Prog (Bool × Option Err)) :
    Nat → Prog (Option (Option Err))
  | 0 => pure none
  | fuel + 1 => do
    let (ok, err) ← condition
    if err.isSome || ok then pure (some err)
    else
      match ← call .tick with
      | some ctxErr => pure (some (some ctxErr))
      | none => pollUntilContextCancel condition fuel

/-- The condition function polled by `waitForCurrentStatus`. -/
def waitCondition (kust : Kustomization) (revision : String) : Prog (Bool × Option Err) := do
  match ← call (.getKust kust.ns kust.name) with
  | .error err => pure (false, some err)
  | .ok kust =>
    if kust.status.lastAttemptedRevision ≠ "" ∧ kust.status.lastAttemptedRevision ≠ revision then
      pure (false, none)
    else
      match isStalled kust with
      | some err => pure (false, some err)
      | none =>
        match ← call (.kstatus kust) with
        | .current => pure (true, none)
        | .inProgress => pure (false, none)
        | .unknown => pure (false, none)
        | status =>
          pure (false, some (Err.interrupted ("failed Kustomization status " ++ status.toString)))

/-- Number of condition runs that fit before the deadline of a context with
the given timeout: one at once and one per elapsed interval. -/
def pollBudget (timeout : Nat) : Nat := timeout / pollInterval + 1

/-- Go `waitForCurrentStatus`. The wait context carries the Kustomization's
own timeout, so the loop is bounded: when `pollBudget` runs went by without a
verdict the deadline has passed and the loop returns `deadlineExceeded`. -/
def waitForCurrentStatus (kust : Kustomization) (revision : String) : Prog (Option Err) := do
  match ← pollUntilContextCancel (waitCondition kust revision) (pollBudget kust.spec.timeout) with
  | some err => pure err
  | none => pure (some Err.deadlineExceeded)

/-- Go `FluxController.Diff`: drift verdict, message, error. -/
def Diff (c : FluxController) (name : String) (data : Bytes) :
    Prog (Bool × String × Option Err) := do
  match ← call (.getKust c.ns name) with
  | .error err =>
    if err.isNotFound then pure (true, "Kustomization " ++ name ++ " could not be found", none)
    else pure (false, "", some err)
  | .ok kust =>
    match ← call (.getEA c.ns name) with
    | .error err =>
      if err.isNotFound then
        pure (true, "External Artifact " ++ name ++ " could not be found", none)
      else pure (false, "", some err)
    | .ok ea =>
      match ea.status.artifact with
      | none => pure (true, "External Artifact status is empty", none)
      | some artifact =>
        if !(← call (.artifactExist artifact)) then
          pure (true, "Artifact does not exist on disk", none)
        else if artifact.revision ≠ kust.status.lastAppliedRevision then
          pure (true,
            "External Artifact revision does not match Kustomization last applied revision", none)
        else
          match ← call .mkdirTemp with
          | .error err => pure (false, "", some err)
          | .ok tmpDir =>
            let result ← (do
              match ← call (.copyToPath artifact dataFileName (pathJoin tmpDir dataFileName)) with
              | some err => pure (false, "", some err)
              | none =>
                match ← call (.readFile (pathJoin tmpDir dataFileName)) with
                | .error err => pure (false, "", some err)
                | .ok current =>
                  if current ≠ data then
                    pure (true, "External Artifact current data does not match expected data",
                      none)
                  else pure (false, "No drift detected", none))
            let _ ← call (.osRemoveAll tmpDir)
            pure result

/-- The ExternalArtifact `Apply` sends first: name, namespace, ownership label. -/
def applyEA (c : FluxController) (name : String) : ExternalArtifact :=
  { name := name, ns := c.ns, labels := [(ManagedByLabelKey, ControllerName)] }

/-- The status `Apply` patches onto the ExternalArtifact. -/
def applyEAStatus (artifact : Artifact) (generation : Nat) : ExternalArtifactStatus :=
  { artifact := some artifact,
    conditions := [{ type := "Ready", status := "True", reason := "Succeeded",
                     message := "Artifact is ready", observedGeneration := generation }] }

/-- The Kustomization `Apply` sends. -/
def applyKust (c : FluxController) (name : String) : Kustomization :=
  { name := name, ns := c.ns, labels := [(ManagedByLabelKey, ControllerName)],
    spec := { interval := 60, timeout := 300, wait := true, prune := true,
              sourceRef := { kind := "ExternalArtifact", name := name, ns := c.ns } } }

/-- The artifact `Apply` asks the storage for: kind `confighub`, the
controller's namespace, the name, and the file `<revision>.tar.gz`. -/
def applyArtifact (c : FluxController) (name revision : String) : Artifact :=
  NewArtifactFor c "confighub" c.ns name revision (revision ++ ".tar.gz")

/-- The artifact after `storage.Archive` filled in digest and size. -/
def archived (artifact : Artifact) (digest : String) (size : Nat) : Artifact :=
  { artifact with digest := digest, size := some size }

/-- The ExternalArtifact `Apply` sends in the status patch: the object the
server answered (its generation), with the new status. -/
def applyEAPatched (c : FluxController) (name : String) (artifact : Artifact)
    (generation : Nat) : ExternalArtifact :=
  { applyEA c name with generation := generation, status := applyEAStatus artifact generation }

/-- The part of `Apply` that runs between the creation of the temporary
directory and its deferred removal. -/
def applyBody (c : FluxController) (name revision : String) (data : Bytes) (tmpDir : String) :
    Prog (Option Err) := do
  match ← call (.writeFile (pathJoin tmpDir dataFileName) data) with
  | some err => pure (some err)
  | none =>
    match ← call (.mkdirAll (applyArtifact c name revision)) with
    | some err => pure (some err)
    | none =>
      match ← call (.archive (applyArtifact c name revision) tmpDir) with
      | .error err => pure (some err)
      | .ok (digest, size) =>
        match ← call (.patchEA (applyEA c name)) with
        | .error err => pure (some err)
        | .ok generation =>
          match ← call (.patchEAStatus (applyEAPatched c name
              (archived (applyArtifact c name revision) digest size) generation)) with
          | some err => pure (some err)
          | none =>
            match ← call (.patchKust (applyKust c name)) with
            | some err => pure (some err)
            | none =>
              match ← waitForCurrentStatus (applyKust c name) revision with
              | some err => pure (some err)
              | none =>
                match ← call (.garbageCollect
                    (archived (applyArtifact c name revision) digest size) 5) with
                | some err => pure (some err)
                | none => pure none

/-- Go `FluxController.Apply`: `none` is success. -/
def Apply (c : FluxController) (name revision : String) (data : Bytes) : Prog (Option Err) :=
  if data.length = 0 then pure (some (Err.new "can't apply empty data"))
  else if name = "" then pure (some (Err.new "name can't be empty"))
  else if revision = "" then pure (some (Err.new "revision can't be empty"))
  else do
    match ← call .mkdirTemp with
    | .error err => pure (some err)
    | .ok tmpDir =>
      let result ← applyBody c name revision data tmpDir
      let _ ← call (.osRemoveAll tmpDir)
      pure result

/-- The condition function polled by `Delete`: done once the Kustomization is
not found. -/
def deleteCondition (c : FluxController) (name : String) : Prog (Bool × Option Err) := do
  match ← call (.getKust c.ns name) with
  | .error err => if err.isNotFound then pure (true, none) else pure (false, some err)
  | .ok _ => pure (false, none)

/-- Go `FluxController.Delete`. The poll has no deadline of its own; `fuel`
bounds its condition runs, and the outer `none` says it was still polling when
the fuel ran out. The inner `none` is success. -/
def Delete (c : FluxController) (name : String) (fuel : Nat) : Prog (Option (Option Err)) := do
  let err ← call (.deleteKust c.ns name)
  if err.isSome && !(err.any Err.isNotFound) then pure (some err)
  else
    match ← pollUntilContextCancel (deleteCondition c name) fuel with
    | none => pure none
    | some _ =>
      let ea0 : ExternalArtifact := { name := name, ns := c.ns }
      let got ← call (.getEA c.ns name)
      match got with
      | .error err =>
        if !err.isNotFound then pure (some (some err))
        else deleteEA ea0
      | .ok ea => deleteEA ea
where
  deleteEA (ea : ExternalArtifact) : Prog (Option (Option Err)) := do
    let err ← call (.deleteEA ea.ns ea.name)
    if err.isSome && !(err.any Err.isNotFound) then pure (some err)
    else
      match ea.status.artifact with
      | some artifact =>
        match ← call (.removeAll artifact) with
        | some err => pure (some (some err))
        | none => pure (some none)
      | none => pure (some none)

/-! ## A model of the collaborators

`kstatusCompute` follows `kstatus.Compute` of `fluxcd/cli-utils` on an object
that has no kind-specific rule, such as a Kustomization. `cluster` is an API
server that stores objects by namespace and name, without finalizers, next to
an artifact store that holds archives by path and a temporary file system.
What the reconciler does between two polls, the bytes of an archive file and
their hash, and the errors the collaborators answer are left open in `Env`. -/

/-- Model of `kstatus.Compute`, the generic conditions: a `Reconciling`
condition that is true gives `InProgress`, a `Stalled` one `Failed`. -/
def kstatusGeneric : List Condition → Option KStatus
  | [] => none
  | cond :: rest =>
    if cond.type = "Reconciling" ∧ cond.status = "True" then some .inProgress
    else if cond.type = "Stalled" ∧ cond.status = "True" then some .failed
    else kstatusGeneric rest

/-- Model of `kstatus.Compute`, the `Ready` condition: true gives `Current`,
false or unknown `InProgress`. -/
def kstatusReady : List Condition → Option KStatus
  | [] => none
  | cond :: rest =>
    if cond.type = "Ready" then
      if cond.status = "True" then some .current
      else if cond.status = "False" ∨ cond.status = "Unknown" then some .inProgress
      else kstatusReady rest
    else kstatusReady rest

/-- Model of `kstatus.Compute`: a deletion timestamp gives `Terminating`; an
observed generation that differs from the generation gives `InProgress`, a test
that is skipped when either field is absent from the object (a zero value is
not serialised); then the generic conditions, then the `Ready` condition; an
object with none of these is `Current`. -/
def kstatusCompute (k : Kustomization) : KStatus :=
  if k.deleting then .terminating
  else if k.generation ≠ 0 ∧
      k.status.observedGeneration.any (fun g => g ≠ 0 ∧ g ≠ k.generation) then .inProgress
  else
    match kstatusGeneric k.status.conditions with
    | some s => s
    | none =>
      match kstatusReady k.status.conditions with
      | some s => s
      | none => .current

/-- State of the modelled collaborators: the Kustomizations and
ExternalArtifacts the API server holds, the archives of the artifact store by
path (each the files it packs, by name), the temporary files by path, and the
number of temporary directories handed out. -/
structure World where
  kusts : List Kustomization := []
  eas : List ExternalArtifact := []
  store : List (String × List (String × Bytes)) := []
  tmp : List (String × Bytes) := []
  nextTmp : Nat := 0
  deriving DecidableEq, Repr

/-- What the model leaves open: the Kustomizations after the reconciler had one
poll interval to act, the bytes of the archive file (tar and gzip) packing
given files, the SHA-256 hash of given bytes, and the error, if any, a
collaborator answers an operation with in a given world. -/
structure Env where
  reconcile : World → List Kustomization := fun w => w.kusts
  tarGz : List (String × Bytes) → Bytes := fun files => files.flatMap (fun f => f.2)
  sha256 : Bytes → Bytes := fun _ => List.replicate 32 0
  fault : World → Op → Option Err := fun _ _ => none

/-- The lower-case hexadecimal digit of a number below sixteen. -/
def hexDigit (n : Nat) : Char :=
  "0123456789abcdef".data.getD n '0'

/-- The lower-case hexadecimal text of bytes, two digits a byte. -/
def hexOf (bs : Bytes) : String :=
  String.mk (bs.flatMap (fun b => [hexDigit (b.toNat / 16), hexDigit (b.toNat % 16)]))

/-- The digest `storage.Archive` records: the SHA-256 hash of the bytes of the
archive file it wrote, rendered as `sha256:` and the hash in hexadecimal. -/
def Env.digest (env : Env) (files : List (String × Bytes)) : String :=
  "sha256:" ++ hexOf (env.sha256 (env.tarGz files))

/-- The size `storage.Archive` records: the number of bytes of the archive
file it wrote. -/
def Env.size (env : Env) (files : List (String × Bytes)) : Nat :=
  (env.tarGz files).length

/-- The answer of an operation that fails with the given error; `none` for the
operations that have no error result. -/
def Op.fail : (o : Op) → Err → Option o.Resp
  | .getKust _ _, e => some (.error e)
  | .getEA _ _, e => some (.error e)
  | .patchEA _, e => some (.error e)
  | .patchEAStatus _, e => some (some e)
  | .patchKust _, e => some (some e)
  | .deleteKust _ _, e => some (some e)
  | .deleteEA _ _, e => some (some e)
  | .mkdirTemp, e => some (.error e)
  | .writeFile _ _, e => some (some e)
  | .readFile _, e => some (.error e)
  | .osRemoveAll _, _ => none
  | .mkdirAll _, e => some (some e)
  | .archive _ _, e => some (.error e)
  | .artifactExist _, _ => none
  | .copyToPath _ _ _, e => some (some e)
  | .garbageCollect _ _, e => some (some e)
  | .removeAll _, e => some (some e)
  | .kstatus _, _ => none
  | .tick, e => some (some e)

/-- The Kustomization held under a namespace and name. -/
def findKust (kusts : List Kustomization) (ns name : String) : Option Kustomization :=
  kusts.find? (fun k => k.ns = ns ∧ k.name = name)

/-- The ExternalArtifact held under a namespace and name. -/
def findEA (eas : List ExternalArtifact) (ns name : String) : Option ExternalArtifact :=
  eas.find? (fun ea => ea.ns = ns ∧ ea.name = name)

/-- The archive stored under a path. -/
def findArchive (store : List (String × List (String × Bytes))) (path : String) :
    Option (List (String × Bytes)) :=
  (store.find? (fun e => e.1 = path)).map Prod.snd

/-- The temporary file under a path. -/
def findTmp (tmp : List (String × Bytes)) (path : String) : Option Bytes :=
  (tmp.find? (fun e => e.1 = path)).map Prod.snd

/-- The file packed in an archive under a name. -/
def findFile (files : List (String × Bytes)) (name : String) : Option Bytes :=
  (files.find? (fun f => f.1 = name)).map Prod.snd

/-- The labels after a server-side apply: the applied ones, and those of the
stored object under other keys. -/
def mergeLabels (applied stored : List (String × String)) : List (String × String) :=
  applied ++ stored.filter (fun l => !applied.any (fun a => a.1 = l.1))

/-- A path up to and including its last slash: the directory it lies in. -/
def dirPrefix (path : String) : List Char :=
  (path.data.reverse.dropWhile (fun ch => ch ≠ '/')).reverse

/-- Whether `path` lies in the directory of `of`, at any depth. -/
def inDirOf (of path : String) : Bool :=
  (dirPrefix of).isPrefixOf path.data

/-- Whether `path` lies in the directory `dir`, at any depth. -/
def inDir (dir path : String) : Bool :=
  (dir.data ++ ['/']).isPrefixOf path.data

/-- The name of `path` relative to the directory `dir` it lies in. -/
def relTo (dir path : String) : String :=
  String.mk (path.data.drop (dir.data.length + 1))

/-- What the modelled collaborators do on an operation they do not fail. -/
def clusterStep (env : Env) : (o : Op) → World → o.Resp × World
  | .getKust ns name, w =>
    match findKust w.kusts ns name with
    | some k => (.ok k, w)
    | none => (.error (Err.notFound name), w)
  | .getEA ns name, w =>
    match findEA w.eas ns name with
    | some ea => (.ok ea, w)
    | none => (.error (Err.notFound name), w)
  | .patchEA ea, w =>
    match findEA w.eas ea.ns ea.name with
    | some old =>
      let new := { old with labels := mergeLabels ea.labels old.labels }
      (.ok new.generation,
        { w with eas := w.eas.map (fun x => if x.ns = ea.ns ∧ x.name = ea.name then new else x) })
    | none =>
      (.ok 1, { w with eas := { ea with generation := 1, status := {} } :: w.eas })
  | .patchEAStatus ea, w =>
    match findEA w.eas ea.ns ea.name with
    | some _ =>
      (none, { w with eas := w.eas.map (fun x =>
        if x.ns = ea.ns ∧ x.name = ea.name then { x with status := ea.status } else x) })
    | none => (some (Err.notFound ea.name), w)
  | .patchKust k, w =>
    match findKust w.kusts k.ns k.name with
    | some old =>
      let new := { old with
        labels := mergeLabels k.labels old.labels, spec := k.spec,
        generation := if old.spec = k.spec then old.generation else old.generation + 1 }
      (none,
        { w with kusts := w.kusts.map (fun x => if x.ns = k.ns ∧ x.name = k.name then new else x) })
    | none =>
      (none, { w with kusts := { k with generation := 1, deleting := false, status := {} } :: w.kusts })
  | .deleteKust ns name, w =>
    match findKust w.kusts ns name with
    | some _ => (none, { w with kusts := w.kusts.filter (fun x => ¬ (x.ns = ns ∧ x.name = name)) })
    | none => (some (Err.notFound name), w)
  | .deleteEA ns name, w =>
    match findEA w.eas ns name with
    | some _ => (none, { w with eas := w.eas.filter (fun x => ¬ (x.ns = ns ∧ x.name = name)) })
    | none => (some (Err.notFound name), w)
  | .mkdirTemp, w => (.ok ("/tmp/" ++ toString w.nextTmp), { w with nextTmp := w.nextTmp + 1 })
  | .writeFile path data, w =>
    (none, { w with tmp := (path, data) :: w.tmp.filter (fun e => e.1 ≠ path) })
  | .readFile path, w =>
    match findTmp w.tmp path with
    | some data => (.ok data, w)
    | none => (.error (Err.other "no such file or directory"), w)
  | .osRemoveAll dir, w => ((), { w with tmp := w.tmp.filter (fun e => !inDir dir e.1) })
  | .mkdirAll _, w => (none, w)
  | .archive a dir, w =>
    let files := (w.tmp.filter (fun e => inDir dir e.1)).map (fun e => (relTo dir e.1, e.2))
    (.ok (env.digest files, env.size files),
      { w with store := (a.path, files) :: w.store.filter (fun e => e.1 ≠ a.path) })
  | .artifactExist a, w => (w.store.any (fun e => e.1 = a.path), w)
  | .copyToPath a file dest, w =>
    match findArchive w.store a.path with
    | none => (some (Err.other "no such file or directory"), w)
    | some files =>
      match findFile files file with
      | none => (some (Err.other "no such file or directory"), w)
      | some data => (none, { w with tmp := (dest, data) :: w.tmp.filter (fun e => e.1 ≠ dest) })
  | .garbageCollect a _, w =>
    (none, { w with store := w.store.filter (fun e => e.1 = a.path || !inDirOf a.path e.1) })
  | .removeAll a, w => (none, { w with store := w.store.filter (fun e => !inDirOf a.path e.1) })
  | .kstatus k, w => (kstatusCompute k, w)
  | .tick, w => (none, { w with kusts := env.reconcile w })

/-- The modelled collaborators as a handler: an operation the environment
fails answers that error and changes nothing; any other does its step. -/
def cluster (env : Env) : Handler World := fun o w =>
  match (env.fault w o).bind o.fail with
  | some r => (r, w)
  | none => clusterStep env o w

/-! ## Inputs of the repository's test -/

/-- The controller of `TestController`: namespace `confighub`, storage address `:8080`. -/
def testController : FluxController := { ns := "confighub", hostname := "localhost:8080" }

/-- The bytes of `Hello World`. -/
def helloWorld : Bytes := [72, 101, 108, 108, 111, 32, 87, 111, 114, 108, 100]

/-- The bytes of `Hello World Updated`. -/
def helloWorldUpdated : Bytes :=
  [72, 101, 108, 108, 111, 32, 87, 111, 114, 108, 100, 32, 85, 112, 100, 97, 116, 101, 100]

/-- The step of `Apply` an operation belongs to, in the order of the source:
temporary directory, data file, artifact directory, archive, ExternalArtifact
patch, its status patch, Kustomization patch, the convergence wait (fetches,
status computations and waits), garbage collection, and last the deferred
removal of the temporary directory. `0` for operations `Apply` never issues. -/
def Op.step : Op → Nat
  | .mkdirTemp => 1
  | .writeFile _ _ => 2
  | .mkdirAll _ => 3
  | .archive _ _ => 4
  | .patchEA _ => 5
  | .patchEAStatus _ => 6
  | .patchKust _ => 7
  | .getKust _ _ => 8
  | .kstatus _ => 8
  | .tick => 8
  | .garbageCollect _ _ => 9
  | .osRemoveAll _ => 10
  | _ => 0

/-- Two entries of a record of `Apply` are in order when the later one belongs
to a later step, or both to the convergence wait, and when the earlier one did
not fail unless the later one is the deferred cleanup. -/
def inApplyOrder (a b : Event) : Prop :=
  (a.op.step < b.op.step ∨ (a.op.step = 8 ∧ b.op.step = 8)) ∧ (a.err = none ∨ b.op.step = 10)

/-- An operation that cannot take the archive under `path` out of the store:
anything but `storage.RemoveAll`, and `storage.GarbageCollect` only when it is
told to keep the artifact of that very path. -/
def keepsArchive (path : String) : Op → Prop
  | .removeAll _ => False
  | .garbageCollect a _ => a.path = path
  | _ => True

/-- A Kustomization `foo` whose `Ready` condition is true and whose
`lastAttemptedRevision` is empty. -/
def readyKust : Kustomization :=
  { name := "foo", ns := "confighub", generation := 1,
    status := { conditions := [{ type := "Ready", status := "True" }] } }

/-- A Kustomization `foo` still at revision `dev-1` and reported stalled there. -/
def stalledStaleKust : Kustomization :=
  { name := "foo", ns := "confighub", generation := 1,
    status := { lastAttemptedRevision := "dev-1",
                conditions := [{ type := "Stalled", status := "True",
                                 message := "kustomize build failed" }] } }

/-- The verdict of `Diff` read off the state of the cluster: the rows of the
decision table in their order. -/
def diffTable (c : FluxController) (name : String) (data : Bytes) (w : World) :
    Bool × String × Option Err :=
  match findKust w.kusts c.ns name with
  | none => (true, "Kustomization " ++ name ++ " could not be found", none)
  | some kust =>
    match findEA w.eas c.ns name with
    | none => (true, "External Artifact " ++ name ++ " could not be found", none)
    | some ea =>
      match ea.status.artifact with
      | none => (true, "External Artifact status is empty", none)
      | some artifact =>
        match findArchive w.store artifact.path with
        | none => (true, "Artifact does not exist on disk", none)
        | some files =>
          if artifact.revision ≠ kust.status.lastAppliedRevision then
            (true,
              "External Artifact revision does not match Kustomization last applied revision",
              none)
          else
            match findFile files dataFileName with
            | none => (false, "", some (Err.other "no such file or directory"))
            | some current =>
              if current ≠ data then
                (true, "External Artifact current data does not match expected data", none)
              else (false, "No drift detected", none)

/-- The Kustomization `foo` as `Apply` writes it, once the reconciler has
applied it at revision `dev-1`. -/
def appliedKust : Kustomization :=
  { applyKust testController "foo" with
    generation := 1,
    status := { observedGeneration := some 1, lastAppliedRevision := "dev-1",
                lastAttemptedRevision := "dev-1",
                conditions := [{ type := "Ready", status := "True" }] } }

/-- An environment in which every fetch of a Kustomization fails with a server
error, as during an outage of the API server's storage. -/
def fetchOutage : Env :=
  { fault := fun _ o =>
      match o with
      | .getKust _ _ => some (Err.other "etcdserver: request timed out")
      | _ => none }

/-- An environment in which every fetch of a Kustomization answers not-found,
as when another actor deletes the object as soon as it is written. -/
def fetchNotFound : Env :=
  { fault := fun _ o =>
      match o with
      | .getKust _ name => some (Err.notFound name)
      | _ => none }

/-- The cluster after the first `Apply` of the test on the empty cluster. -/
def afterFirstApply : World :=
  (run (cluster {}) (Apply testController "foo" "dev-1" helloWorld) {}).world

/-- The operations on the API server, as opposed to the artifact storage and
the operating system. -/
def Op.isBackend : Op → Bool
  | .getKust _ _ => true
  | .getEA _ _ => true
  | .patchEA _ => true
  | .patchEAStatus _ => true
  | .patchKust _ => true
  | .deleteKust _ _ => true
  | .deleteEA _ _ => true
  | _ => false

/-! ## The bridge -/

/-- Go `api.BridgeWorkerPayload`, the fields the bridge reads. -/
structure BridgeWorkerPayload where
  SpaceSlug : String
  UnitSlug : String
  RevisionNum : Nat := 0
  Data : Bytes := []
  deriving DecidableEq, Repr

/-- Go `strings.Join` of two elements. -/
def stringsJoin2 (a b sep : String) : String := a ++ sep ++ b

/-- Go `payloadToName`: the name under which the controller is called for a
payload, in `FluxBridge.Apply`, `Refresh` and `Destroy` alike. -/
def payloadToName (payload : BridgeWorkerPayload) : String :=
  stringsJoin2 payload.SpaceSlug payload.UnitSlug "-"

/-- A controller working in the namespace `prod`. -/
def prodController : FluxController := { ns := "prod", hostname := "localhost:8080" }

/-! ## Lemmas on runs -/

@[simp] theorem run_ret {W α : Type} (h : Handler W) (a : α) (w : W) :
    run h (Prog.ret a) w = ⟨a, w, []⟩ := rfl

@[simp] theorem run_pure {W α : Type} (h : Handler W) (a : α) (w : W) :
    run h (pure a : Prog α) w = ⟨a, w, []⟩ := rfl

@[simp] theorem run_op {W α : Type} (h : Handler W) (o : Op) (k : o.Resp → Prog α) (w : W) :
    run h (Prog.op o k) w =
      ⟨(run h (k (h o w).1) (h o w).2).val, (run h (k (h o w).1) (h o w).2).world,
        ⟨o, o.errOf (h o w).1⟩ :: (run h (k (h o w).1) (h o w).2).trace⟩ := rfl

@[simp] theorem run_call {W : Type} (h : Handler W) (o : Op) (w : W) :
    run h (call o) w = ⟨(h o w).1, (h o w).2, [⟨o, o.errOf (h o w).1⟩]⟩ := rfl

theorem run_bind {W α β : Type} (h : Handler W) (p : Prog α) (f : α → Prog β) (w : W) :
    run h (p >>= f) w =
      ⟨(run h (f (run h p w).val) (run h p w).world).val,
        (run h (f (run h p w).val) (run h p w).world).world,
        (run h p w).trace ++ (run h (f (run h p w).val) (run h p w).world).trace⟩ := by
  induction p generalizing w with
  | ret a => rfl
  | op o k ih =>
    show run h (Prog.op o (fun r => (k r) >>= f)) w = _
    simp [ih]

@[simp] theorem run_call_bind {W β : Type} (h : Handler W) (o : Op) (f : o.Resp → Prog β) (w : W) :
    run h (call o >>= f) w =
      ⟨(run h (f (h o w).1) (h o w).2).val, (run h (f (h o w).1) (h o w).2).world,
        ⟨o, o.errOf (h o w).1⟩ :: (run h (f (h o w).1) (h o w).2).trace⟩ := rfl

/-! ## The modelled cluster -/

theorem cluster_noFault (env : Env) (hf : ∀ w o, env.fault w o = none) (o : Op) (w : World) :
    cluster env o w = clusterStep env o w := by
  simp [cluster, hf]

theorem any_store_eq (store : List (String × List (String × Bytes))) (p : String) :
    store.any (fun e => e.1 = p) = (findArchive store p).isSome := by
  unfold findArchive
  induction store with
  | nil => rfl
  | cons x xs ih =>
    by_cases hx : x.1 = p <;> simp [List.find?, hx, ih]

/-! ## Diff -/

/-- Against the fault-free cluster, the verdict of `Diff` is `diffTable` of the
cluster's state. -/
theorem Diff_cluster (env : Env) (hf : ∀ w o, env.fault w o = none) (c : FluxController)
    (name : String) (data : Bytes) (w : World) :
    (run (cluster env) (Diff c name data) w).val = diffTable c name data w := by
  unfold Diff diffTable
  cases hk : findKust w.kusts c.ns name with
  | none => simp [cluster_noFault env hf, clusterStep, hk, Err.isNotFound]
  | some k =>
    cases he : findEA w.eas c.ns name with
    | none => simp [cluster_noFault env hf, clusterStep, hk, he, Err.isNotFound]
    | some ea =>
      cases ha : ea.status.artifact with
      | none => simp [cluster_noFault env hf, clusterStep, hk, he, ha]
      | some a =>
        cases hs : findArchive w.store a.path with
        | none => simp [cluster_noFault env hf, clusterStep, hk, he, ha, any_store_eq, hs]
        | some files =>
          by_cases hr : a.revision = k.status.lastAppliedRevision
          · cases hd : findFile files dataFileName with
            | none =>
              simp [cluster_noFault env hf, clusterStep, hk, he, ha, any_store_eq, hs, hr,
                run_bind, hd]
            | some cur =>
              by_cases hc : cur = data <;>
                simp [cluster_noFault env hf, clusterStep, hk, he, ha, any_store_eq, hs, hr,
                  run_bind, hd, findTmp, hc]
          · simp [cluster_noFault env hf, clusterStep, hk, he, ha, any_store_eq, hs, hr]

/-- C1. `Diff` is an ordered decision table over the state of the cluster, the
first matching row giving the verdict: no Kustomization; no ExternalArtifact;
an ExternalArtifact without `status.artifact`; an artifact without archive in
the store; an artifact revision other than the Kustomization's
`lastAppliedRevision`; and last the comparison of the archived `data.yaml`
with the expected bytes. `No drift detected` is answered only when no earlier
row matches and the bytes are equal. -/
theorem Diff_decision_table (env : Env) (hf : ∀ w o, env.fault w o = none)
    (c : FluxController) (name : String) (data : Bytes) (w : World) :
    let verdict := (run (cluster env) (Diff c name data) w).val
    (findKust w.kusts c.ns name = none →
      verdict = (true, "Kustomization " ++ name ++ " could not be found", none)) ∧
    (∀ kust, findKust w.kusts c.ns name = some kust →
      (findEA w.eas c.ns name = none →
        verdict = (true, "External Artifact " ++ name ++ " could not be found", none)) ∧
      (∀ ea, findEA w.eas c.ns name = some ea →
        (ea.status.artifact = none →
          verdict = (true, "External Artifact status is empty", none)) ∧
        (∀ artifact, ea.status.artifact = some artifact →
          (findArchive w.store artifact.path = none →
            verdict = (true, "Artifact does not exist on disk", none)) ∧
          (∀ files, findArchive w.store artifact.path = some files →
            (artifact.revision ≠ kust.status.lastAppliedRevision →
              verdict = (true,
                "External Artifact revision does not match Kustomization last applied revision",
                none)) ∧
            (∀ current, artifact.revision = kust.status.lastAppliedRevision →
              findFile files dataFileName = some current →
              (current ≠ data →
                verdict = (true,
                  "External Artifact current data does not match expected data", none)) ∧
              (current = data → verdict = (false, "No drift detected", none))))))) ∧
    (verdict = (false, "No drift detected", none) →
      ∃ kust ea artifact files,
        findKust w.kusts c.ns name = some kust ∧ findEA w.eas c.ns name = some ea ∧
        ea.status.artifact = some artifact ∧ findArchive w.store artifact.path = some files ∧
        artifact.revision = kust.status.lastAppliedRevision ∧
        findFile files dataFileName = some data) := by
  intro verdict
  have key : verdict = diffTable c name data w := Diff_cluster env hf c name data w
  unfold diffTable at key
  refine ⟨?_, ?_, ?_⟩
  · intro hk
    simp [key, hk]
  · intro kust hk
    refine ⟨fun he => by simp [key, hk, he], fun ea he => ?_⟩
    refine ⟨fun ha => by simp [key, hk, he, ha], fun a ha => ?_⟩
    refine ⟨fun hs => by simp [key, hk, he, ha, hs], fun files hs => ?_⟩
    refine ⟨fun hr => by simp [key, hk, he, ha, hs, hr], fun cur hr hd => ?_⟩
    exact ⟨fun hc => by simp [key, hk, he, ha, hs, hr, hd, hc],
      fun hc => by simp [key, hk, he, ha, hs, hr, hd, hc]⟩
  · intro hv
    rw [key] at hv
    cases hk : findKust w.kusts c.ns name with
    | none => simp [hk] at hv
    | some k =>
      cases he : findEA w.eas c.ns name with
      | none => simp [hk, he] at hv
      | some ea =>
        cases ha : ea.status.artifact with
        | none => simp [hk, he, ha] at hv
        | some a =>
          cases hs : findArchive w.store a.path with
          | none => simp [hk, he, ha, hs] at hv
          | some files =>
            by_cases hr : a.revision = k.status.lastAppliedRevision
            · cases hd : findFile files dataFileName with
              | none => simp [hk, he, ha, hs, hr, hd] at hv
              | some cur =>
                by_cases hc : cur = data
                · exact ⟨k, ea, a, files, rfl, rfl, ha, hs, hr, by rw [hd, hc]⟩
                · simp [hk, he, ha, hs, hr, hd, hc] at hv
            · simp [hk, he, ha, hs, hr] at hv

/-- C1, at the test's inputs on an empty cluster: no Kustomization, so drift
with the missing-Kustomization message and no error. -/
theorem Diff_decision_table_witness :
    (run (cluster {}) (Diff testController "foo" helloWorld) {}).val =
      (true, "Kustomization " ++ "foo" ++ " could not be found", none) :=
  (Diff_decision_table {} (fun _ _ => rfl) testController "foo" helloWorld {}).1 rfl

/-! ## Apply -/

/-- C2. `Apply` with empty data, an empty name or an empty revision is a bare
return of an error: it issues no operation at all, so against every backend
its run records nothing and leaves the world as it was. -/
theorem Apply_invalid_no_effects {W : Type} (h : Handler W) (w : W) (c : FluxController)
    (name revision : String) (data : Bytes)
    (hbad : data = [] ∨ name = "" ∨ revision = "") :
    ∃ err, Apply c name revision data = Prog.ret (some err) ∧
      run h (Apply c name revision data) w = ⟨some err, w, []⟩ := by
  by_cases hd : data = []
  · exact ⟨Err.new "can't apply empty data", by simp [Apply, hd, pure], by simp [Apply, hd]⟩
  · have hlen : data.length ≠ 0 := by simpa using hd
    by_cases hn : name = ""
    · exact ⟨Err.new "name can't be empty", by simp [Apply, hlen, hn, pure],
        by simp [Apply, hlen, hn]⟩
    · have hr : revision = "" := by
        rcases hbad with h1 | h1 | h1
        · exact absurd h1 hd
        · exact absurd h1 hn
        · exact h1
      exact ⟨Err.new "revision can't be empty", by simp [Apply, hlen, hn, hr, pure],
        by simp [Apply, hlen, hn, hr]⟩

/-- C2, at an empty revision on the empty cluster. -/
theorem Apply_invalid_no_effects_witness :
    ∃ err, Apply testController "foo" "" helloWorld = Prog.ret (some err) ∧
      run (cluster {}) (Apply testController "foo" "" helloWorld) {} = ⟨some err, {}, []⟩ :=
  Apply_invalid_no_effects (cluster {}) {} testController "foo" "" helloWorld (Or.inr (Or.inr rfl))

/-! ## Steps of operations -/

@[simp] theorem step_getKust (ns name : String) : (Op.getKust ns name).step = 8 := rfl

@[simp] theorem step_getEA (ns name : String) : (Op.getEA ns name).step = 0 := rfl

@[simp] theorem step_patchEA (ea : ExternalArtifact) : (Op.patchEA ea).step = 5 := rfl

@[simp] theorem step_patchEAStatus (ea : ExternalArtifact) : (Op.patchEAStatus ea).step = 6 := rfl

@[simp] theorem step_patchKust (k : Kustomization) : (Op.patchKust k).step = 7 := rfl

@[simp] theorem step_deleteKust (ns name : String) : (Op.deleteKust ns name).step = 0 := rfl

@[simp] theorem step_deleteEA (ns name : String) : (Op.deleteEA ns name).step = 0 := rfl

@[simp] theorem step_mkdirTemp : Op.mkdirTemp.step = 1 := rfl

@[simp] theorem step_writeFile (p : String) (d : Bytes) : (Op.writeFile p d).step = 2 := rfl

@[simp] theorem step_readFile (p : String) : (Op.readFile p).step = 0 := rfl

@[simp] theorem step_osRemoveAll (p : String) : (Op.osRemoveAll p).step = 10 := rfl

@[simp] theorem step_mkdirAll (a : Artifact) : (Op.mkdirAll a).step = 3 := rfl

@[simp] theorem step_archive (a : Artifact) (d : String) : (Op.archive a d).step = 4 := rfl

@[simp] theorem step_artifactExist (a : Artifact) : (Op.artifactExist a).step = 0 := rfl

@[simp] theorem step_copyToPath (a : Artifact) (f d : String) : (Op.copyToPath a f d).step = 0 := rfl

@[simp] theorem step_garbageCollect (a : Artifact) (t : Nat) : (Op.garbageCollect a t).step = 9 := rfl

@[simp] theorem step_removeAll (a : Artifact) : (Op.removeAll a).step = 0 := rfl

@[simp] theorem step_kstatus (k : Kustomization) : (Op.kstatus k).step = 8 := rfl

@[simp] theorem step_tick : Op.tick.step = 8 := rfl

/-! ## The convergence wait -/

theorem waitCondition_run {W : Type} (h : Handler W) (w : W) (kust : Kustomization)
    (revision : String) :
    let r := run h (waitCondition kust revision) w
    (∀ ev ∈ r.trace, ev.op.step = 8) ∧
    r.trace.Pairwise (fun a _ => a.err = none) ∧
    (∀ ev ∈ r.trace, ∀ e, ev.err = some e → r.val = (false, some e)) ∧
    r.trace ≠ [] := by
  intro r
  show _ ∧ _ ∧ _ ∧ _
  simp only [r]
  unfold waitCondition
  simp only [run_call_bind]
  rcases hg : h (.getKust kust.ns kust.name) w with ⟨r1, w1⟩
  cases r1 with
  | error e => simp [Op.step, Op.errOf]
  | ok k =>
    by_cases hs : k.status.lastAttemptedRevision ≠ "" ∧ k.status.lastAttemptedRevision ≠ revision
    · simp [hs, Op.step, Op.errOf]
    · cases hst : isStalled k with
      | some e => simp [hs, hst, Op.step, Op.errOf]
      | none =>
        rcases hk : h (.kstatus k) w1 with ⟨r2, w2⟩
        cases r2 <;> simp [hs, hst, hk, Op.step, Op.errOf]


theorem pollUntilContextCancel_succ {W : Type} (h : Handler W) (w : W)
    (cond : Prog (Bool × Option Err)) (n : Nat) :
    run h (pollUntilContextCancel cond (n + 1)) w =
      if (run h cond w).val.2.isSome || (run h cond w).val.1 then
        ⟨some (run h cond w).val.2, (run h cond w).world, (run h cond w).trace⟩
      else
        match (h .tick (run h cond w).world).1 with
        | some ctxErr =>
          ⟨some (some ctxErr), (h .tick (run h cond w).world).2,
            (run h cond w).trace ++ [⟨.tick, some ctxErr⟩]⟩
        | none =>
          ⟨(run h (pollUntilContextCancel cond n) (h .tick (run h cond w).world).2).val,
            (run h (pollUntilContextCancel cond n) (h .tick (run h cond w).world).2).world,
            (run h cond w).trace ++ ⟨.tick, none⟩ ::
              (run h (pollUntilContextCancel cond n) (h .tick (run h cond w).world).2).trace⟩ := by
  rw [pollUntilContextCancel, run_bind]
  rcases hc : (run h cond w).val with ⟨ok, err⟩
  by_cases hd : (err.isSome || ok) = true
  · simp [hd]
  · simp only [hd]
    simp only [Bool.false_eq_true, ↓reduceIte, run_call_bind]
    rcases ht : h .tick (run h cond w).world with ⟨r, w2⟩
    cases r <;> simp [Op.errOf]

theorem waitLoop_run {W : Type} (h : Handler W) (kust : Kustomization) (revision : String)
    (n : Nat) (w : W) :
    let r := run h (pollUntilContextCancel (waitCondition kust revision) n) w
    (∀ ev ∈ r.trace, ev.op.step = 8) ∧
    r.trace.Pairwise (fun a _ => a.err = none) ∧
    (∀ ev ∈ r.trace, ∀ e, ev.err = some e → r.val = some (some e)) ∧
    (0 < n → r.trace ≠ []) := by
  induction n generalizing w with
  | zero => simp [pollUntilContextCancel]
  | succ n ih =>
    intro r
    show _ ∧ _ ∧ _ ∧ _
    simp only [r]
    rw [pollUntilContextCancel_succ]
    obtain ⟨c1, c2, c3, c4⟩ := waitCondition_run h w kust revision
    rcases hc : (run h (waitCondition kust revision) w).val with ⟨ok, err⟩
    rw [hc] at c3
    by_cases hd : (err.isSome || ok) = true
    · simp only [hd, ↓reduceIte]
      refine ⟨c1, c2, ?_, fun _ => c4⟩
      intro ev hev e he
      have := c3 ev hev e he
      simp only [Prod.mk.injEq] at this
      rw [this.2]
    · have hnone : ∀ ev ∈ (run h (waitCondition kust revision) w).trace, ev.err = none := by
        intro ev hev
        cases hee : ev.err with
        | none => rfl
        | some e =>
          have := c3 ev hev e hee
          simp only [Prod.mk.injEq] at this
          simp [this.1, this.2] at hd
      simp only [hd]
      simp only [Bool.false_eq_true, ↓reduceIte]
      rcases ht : h .tick (run h (waitCondition kust revision) w).world with ⟨rt, w2⟩
      cases rt with
      | some ce =>
        simp only
        refine ⟨?_, ?_, ?_, ?_⟩
        · intro ev hev
          rcases List.mem_append.1 hev with h1 | h1
          · exact c1 ev h1
          · simp at h1; simp [h1, Op.step]
        · rw [List.pairwise_append]
          refine ⟨c2, by simp, fun a ha _ _ => hnone a ha⟩
        · intro ev hev e he
          rcases List.mem_append.1 hev with h1 | h1
          · rw [hnone ev h1] at he; cases he
          · simp at h1; subst h1; simp at he; simp [he]
        · intro _; simp
      | none =>
        simp only
        obtain ⟨i1, i2, i3, _⟩ := ih w2
        refine ⟨?_, ?_, ?_, ?_⟩
        · intro ev hev
          rcases List.mem_append.1 hev with h1 | h1
          · exact c1 ev h1
          · rcases List.mem_cons.1 h1 with h2 | h2
            · simp [h2, Op.step]
            · exact i1 ev h2
        · rw [List.pairwise_append]
          refine ⟨c2, ?_, fun a ha _ _ => hnone a ha⟩
          rw [List.pairwise_cons]
          exact ⟨fun _ _ => rfl, i2⟩
        · intro ev hev e he
          rcases List.mem_append.1 hev with h1 | h1
          · rw [hnone ev h1] at he; cases he
          · rcases List.mem_cons.1 h1 with h2 | h2
            · subst h2; simp at he
            · exact i3 ev h2 e he
        · intro _; simp

theorem waitForCurrentStatus_run {W : Type} (h : Handler W) (kust : Kustomization)
    (revision : String) (w : W) :
    let r := run h (waitForCurrentStatus kust revision) w
    (∀ ev ∈ r.trace, ev.op.step = 8) ∧
    r.trace.Pairwise (fun a _ => a.err = none) ∧
    (∀ ev ∈ r.trace, ∀ e, ev.err = some e → r.val = some e) ∧
    r.trace ≠ [] := by
  intro r
  show _ ∧ _ ∧ _ ∧ _
  simp only [r]
  unfold waitForCurrentStatus
  rw [run_bind]
  obtain ⟨l1, l2, l3, l4⟩ := waitLoop_run h kust revision (pollBudget kust.spec.timeout) w
  have hpos : 0 < pollBudget kust.spec.timeout := Nat.succ_pos _
  cases hv : (run h (pollUntilContextCancel (waitCondition kust revision)
      (pollBudget kust.spec.timeout)) w).val with
  | none =>
    rw [hv] at l3
    simp only [run_pure, List.append_nil]
    refine ⟨l1, l2, ?_, l4 hpos⟩
    intro ev hev e he
    have := l3 ev hev e he
    cases this
  | some res =>
    rw [hv] at l3
    simp only [run_pure, List.append_nil]
    refine ⟨l1, l2, ?_, l4 hpos⟩
    intro ev hev e he
    have := l3 ev hev e he
    simp only [Option.some.injEq] at this
    exact this

theorem wait_pairwise (T : List Event) (l1 : ∀ ev ∈ T, ev.op.step = 8)
    (l2 : T.Pairwise (fun a _ => a.err = none)) :
    T.Pairwise (fun a b =>
      (a.op.step < b.op.step ∨ (a.op.step = 8 ∧ b.op.step = 8)) ∧ a.err = none) :=
  l2.imp_of_mem (fun ha hb hab => ⟨Or.inr ⟨l1 _ ha, l1 _ hb⟩, hab⟩)

theorem keepsArchive_of_step (path : String) (o : Op) (h0 : o.step ≠ 0) (h9 : o.step ≠ 9) :
    keepsArchive path o := by
  cases o <;> simp [keepsArchive] at h0 h9 ⊢

theorem applyBody_run {W : Type} (h : Handler W) (w : W) (c : FluxController)
    (name revision : String) (data : Bytes) (tmpDir : String) :
    let r := run h (applyBody c name revision data tmpDir) w
    (∀ ev ∈ r.trace, 2 ≤ ev.op.step ∧ ev.op.step ≤ 9) ∧
    r.trace.Pairwise (fun a b =>
      (a.op.step < b.op.step ∨ (a.op.step = 8 ∧ b.op.step = 8)) ∧ a.err = none) ∧
    (∀ ev ∈ r.trace, ∀ e, ev.err = some e → r.val = some e) ∧
    (r.val = none → ∀ s, 2 ≤ s → s ≤ 9 → ∃ ev ∈ r.trace, ev.op.step = s) ∧
    (∀ e, r.val = some e → ∀ ev ∈ r.trace, ev.op.step = 9 → ev.err = some e) ∧
    (∀ ev ∈ r.trace, keepsArchive (applyArtifact c name revision).path ev.op ∧
      (ev.op.step = 4 → ev.op = .archive (applyArtifact c name revision) tmpDir) ∧
      (ev.op.step = 9 →
        ∃ w', (run h (waitForCurrentStatus (applyKust c name) revision) w').val = none)) := by
  intro r
  show _ ∧ _ ∧ _ ∧ _ ∧ _ ∧ _
  simp only [r]
  unfold applyBody
  simp only [run_call_bind]
  rcases h1 : h (.writeFile (pathJoin tmpDir dataFileName) data) w with ⟨r1, w1⟩
  cases r1 with
  | some e => simp [h1, Op.step, Op.errOf, keepsArchive]
  | none =>
  rcases h2 : h (.mkdirAll (applyArtifact c name revision)) w1 with ⟨r2, w2⟩
  cases r2 with
  | some e => simp [h1, h2, Op.step, Op.errOf, keepsArchive]
  | none =>
  rcases h3 : h (.archive (applyArtifact c name revision) tmpDir) w2 with ⟨r3, w3⟩
  cases r3 with
  | error e => simp [h1, h2, h3, Op.step, Op.errOf, keepsArchive]
  | ok ds =>
  obtain ⟨digest, size⟩ := ds
  rcases h4 : h (.patchEA (applyEA c name)) w3 with ⟨r4, w4⟩
  cases r4 with
  | error e => simp [h1, h2, h3, h4, Op.step, Op.errOf, keepsArchive]
  | ok gen =>
  rcases h5 : h (.patchEAStatus (applyEAPatched c name
    (archived (applyArtifact c name revision) digest size) gen)) w4 with ⟨r5, w5⟩
  cases r5 with
  | some e => simp [h1, h2, h3, h4, h5, Op.step, Op.errOf, keepsArchive]
  | none =>
  rcases h6 : h (.patchKust (applyKust c name)) w5 with ⟨r6, w6⟩
  cases r6 with
  | some e => simp [h1, h2, h3, h4, h5, h6, Op.step, Op.errOf, keepsArchive]
  | none =>
  obtain ⟨l1, l2, l3, l4⟩ := waitForCurrentStatus_run h (applyKust c name) revision w6
  simp only [h1, h2, h3, h4, h5, h6, run_call_bind]
  rw [run_bind]
  have l5 := wait_pairwise _ l1 l2
  have l6 : ∀ ev ∈ (run h (waitForCurrentStatus (applyKust c name) revision) w6).trace,
      (run h (waitForCurrentStatus (applyKust c name) revision) w6).val = none → ev.err = none := by
    intro ev hev hn
    cases hee : ev.err with
    | none => rfl
    | some e => rw [l3 ev hev e hee] at hn; cases hn
  obtain ⟨ev0, hev0⟩ := List.exists_mem_of_ne_nil _ l4
  generalize (run h (waitForCurrentStatus (applyKust c name) revision) w6).trace = T at *
  cases hv : (run h (waitForCurrentStatus (applyKust c name) revision) w6).val with
  | some e =>
    rw [hv] at l3
    simp only [run_pure, List.append_nil]
    refine ⟨?_, ?_, ?_, ?_, ?_, ?_⟩
    · simp only [List.forall_mem_cons]
      simp
      intro ev hev
      rw [l1 ev hev]; simp
    · simp only [List.pairwise_cons, List.forall_mem_cons]
      simp [Op.errOf]
      refine ⟨?_, ?_, ?_, ?_, ?_, ?_, l5⟩
      all_goals
        intro b hb
        rw [l1 b hb]; simp
    · simp only [List.forall_mem_cons]
      simp [Op.errOf]
      intro ev hev e1 he1
      have := l3 ev hev e1 he1
      simpa using this
    · intro hne; cases hne
    · intro e1 _
      simp only [List.forall_mem_cons]
      simp
      intro ev hev hs
      rw [l1 ev hev] at hs; simp at hs
    · simp only [List.forall_mem_cons]
      simp [keepsArchive]
      intro ev hev
      exact ⟨keepsArchive_of_step _ _ (by rw [l1 ev hev]; simp) (by rw [l1 ev hev]; simp),
        fun hs => by rw [l1 ev hev] at hs; simp at hs,
        fun hs => by rw [l1 ev hev] at hs; simp at hs⟩
  | none =>
    rw [hv] at l6
    have l7 : ∀ ev ∈ T, ev.err = none := fun ev hev => l6 ev hev rfl
    simp only [run_call_bind]
    rcases h7 : h (.garbageCollect (archived (applyArtifact c name revision) digest size) 5)
      (run h (waitForCurrentStatus (applyKust c name) revision) w6).world with ⟨r7, w7⟩
    have hstep : ∀ (x : Option Err) (ev : Event), ev ∈ T ++ [⟨.garbageCollect
        (archived (applyArtifact c name revision) digest size) 5, x⟩] →
        8 ≤ ev.op.step ∧ ev.op.step ≤ 9 := by
      intro x ev hev
      rcases List.mem_append.1 hev with h0 | h0
      · rw [l1 ev h0]; simp
      · simp at h0; subst h0; simp
    have hpair : ∀ (x : Option Err), (T ++ [(⟨.garbageCollect
        (archived (applyArtifact c name revision) digest size) 5, x⟩ : Event)]).Pairwise (fun a b =>
        (a.op.step < b.op.step ∨ (a.op.step = 8 ∧ b.op.step = 8)) ∧ a.err = none) := by
      intro x
      rw [List.pairwise_append]
      refine ⟨l5, by simp, ?_⟩
      intro a ha b hb
      simp at hb; subst hb
      rw [l1 a ha]
      exact ⟨Or.inl (by simp), l7 a ha⟩
    have hkeep : ∀ (x : Option Err), ∀ ev ∈
        (⟨.writeFile (pathJoin tmpDir dataFileName) data, none⟩ : Event) ::
        ⟨.mkdirAll (applyArtifact c name revision), none⟩ ::
        ⟨.archive (applyArtifact c name revision) tmpDir, none⟩ ::
        ⟨.patchEA (applyEA c name), none⟩ ::
        ⟨.patchEAStatus (applyEAPatched c name
          (archived (applyArtifact c name revision) digest size) gen), none⟩ ::
        ⟨.patchKust (applyKust c name), none⟩ :: (T ++ [⟨.garbageCollect
          (archived (applyArtifact c name revision) digest size) 5, x⟩]),
        keepsArchive (applyArtifact c name revision).path ev.op ∧
          (ev.op.step = 4 → ev.op = .archive (applyArtifact c name revision) tmpDir) ∧
          (ev.op.step = 9 →
            ∃ w', (run h (waitForCurrentStatus (applyKust c name) revision) w').val = none) := by
      intro x
      simp only [List.forall_mem_cons, List.forall_mem_append]
      simp [keepsArchive, archived]
      refine ⟨?_, ⟨w6, hv⟩⟩
      intro ev hev
      exact ⟨keepsArchive_of_step _ _ (by rw [l1 ev hev]; simp) (by rw [l1 ev hev]; simp),
        fun hs => by rw [l1 ev hev] at hs; simp at hs,
        fun hs => by rw [l1 ev hev] at hs; simp at hs⟩
    cases r7 with
    | some e =>
      simp only [run_pure, List.append_nil]
      refine ⟨?_, ?_, ?_, ?_, ?_, ?_⟩
      · simp only [List.forall_mem_cons]
        simp
        intro ev hev
        have := hstep _ ev (by simpa using hev)
        omega
      · simp only [List.pairwise_cons, List.forall_mem_cons]
        simp [Op.errOf]
        refine ⟨?_, ?_, ?_, ?_, ?_, ?_, by simpa [Op.errOf] using hpair (some e)⟩
        all_goals
          intro b hb
          have := hstep (some e) b (by simpa using hb)
          omega
      · simp only [List.forall_mem_cons]
        simp [Op.errOf]
        intro ev hev e1 he1
        rcases hev with h0 | h0
        · rw [l7 ev h0] at he1; cases he1
        · subst h0; simpa using he1
      · intro hne; cases hne
      · intro e1 he1
        simp only [List.forall_mem_cons]
        simp
        intro ev hev hs
        rcases hev with h0 | h0
        · rw [l1 ev h0] at hs; simp at hs
        · subst h0; simpa [Op.errOf] using he1
      · exact hkeep _
    | none =>
      simp only [run_pure, List.append_nil]
      refine ⟨?_, ?_, ?_, ?_, ?_, ?_⟩
      · simp only [List.forall_mem_cons]
        simp
        intro ev hev
        have := hstep _ ev (by simpa using hev)
        omega
      · simp only [List.pairwise_cons, List.forall_mem_cons]
        simp [Op.errOf]
        refine ⟨?_, ?_, ?_, ?_, ?_, ?_, by simpa [Op.errOf] using hpair none⟩
        all_goals
          intro b hb
          have := hstep none b (by simpa using hb)
          omega
      · simp only [List.forall_mem_cons]
        simp [Op.errOf]
        intro ev hev e1 he1
        rcases hev with h0 | h0
        · rw [l7 ev h0] at he1; cases he1
        · subst h0; simp at he1
      · intro _ s hs1 hs2
        by_cases h8 : s = 8
        · exact ⟨ev0, by simp [hev0], by rw [l1 ev0 hev0, h8]⟩
        · by_cases h9 : s = 9
          · exact ⟨⟨.garbageCollect (archived (applyArtifact c name revision) digest size) 5,
              none⟩, by simp [Op.errOf], by rw [h9]; rfl⟩
          · interval_cases s <;> simp at h8 h9 ⊢
      · intro e1 he1; cases he1
      · exact hkeep _

theorem Apply_run {W : Type} (h : Handler W) (w : W) (c : FluxController)
    (name revision : String) (data : Bytes)
    (hd : data ≠ []) (hn : name ≠ "") (hr : revision ≠ "") :
    let r := run h (Apply c name revision data) w
    (∀ ev ∈ r.trace, 1 ≤ ev.op.step ∧ ev.op.step ≤ 10) ∧
    r.trace.Pairwise inApplyOrder ∧
    (∀ ev ∈ r.trace, ∀ e, ev.err = some e → r.val = some e) ∧
    (r.val = none → ∀ s, 1 ≤ s → s ≤ 10 → ∃ ev ∈ r.trace, ev.op.step = s) ∧
    (∀ e, r.val = some e → ∀ ev ∈ r.trace, ev.op.step = 9 → ev.err = some e) ∧
    (∀ ev ∈ r.trace, keepsArchive (applyArtifact c name revision).path ev.op ∧
      (ev.op.step = 4 → ∃ dir, ev.op = .archive (applyArtifact c name revision) dir) ∧
      (ev.op.step = 9 →
        ∃ w', (run h (waitForCurrentStatus (applyKust c name) revision) w').val = none)) := by
  intro r
  show _ ∧ _ ∧ _ ∧ _ ∧ _ ∧ _
  have hlen : data.length ≠ 0 := by simpa using hd
  simp only [r, Apply, hlen, hn, hr, ↓reduceIte, run_call_bind]
  rcases h0 : h .mkdirTemp w with ⟨r0, w0⟩
  cases r0 with
  | error e => simp [Op.errOf, inApplyOrder, keepsArchive]
  | ok tmpDir =>
    simp only [run_bind, run_call_bind, run_pure, List.append_nil]
    obtain ⟨b1, b2, b3, b4, b5, b6⟩ := applyBody_run h w0 c name revision data tmpDir
    generalize (run h (applyBody c name revision data tmpDir) w0).trace = B at *
    generalize (run h (applyBody c name revision data tmpDir) w0).val = v at *
    refine ⟨?_, ?_, ?_, ?_, ?_, ?_⟩
    · simp only [List.forall_mem_cons, List.forall_mem_append]
      simp
      intro ev hev
      have := b1 ev hev
      omega
    · simp only [List.pairwise_cons, List.pairwise_append, List.forall_mem_append]
      refine ⟨?_, ⟨?_, by simp, ?_⟩⟩
      · refine ⟨?_, ?_⟩
        · intro b hb
          have := b1 b hb
          exact ⟨Or.inl (by simp; omega), Or.inl (by simp [Op.errOf])⟩
        · intro b hb
          simp at hb; subst hb
          exact ⟨Or.inl (by simp), Or.inr (by simp)⟩
      · exact b2.imp (fun hab => ⟨hab.1, Or.inl hab.2⟩)
      · intro a ha b hb
        simp at hb; subst hb
        have := b1 a ha
        exact ⟨Or.inl (by simp; omega), Or.inr (by simp)⟩
    · simp only [List.forall_mem_cons, List.forall_mem_append]
      simp [Op.errOf]
      exact b3
    · intro hv s hs1 hs2
      by_cases h1 : s = 1
      · exact ⟨⟨.mkdirTemp, none⟩, by simp [Op.errOf], by rw [h1]; rfl⟩
      · by_cases h10 : s = 10
        · exact ⟨⟨.osRemoveAll tmpDir, none⟩, by simp [Op.errOf], by rw [h10]; rfl⟩
        · obtain ⟨ev, hev, hs⟩ := b4 hv s (by omega) (by omega)
          exact ⟨ev, by simp [hev], hs⟩
    · intro e he
      simp only [List.forall_mem_cons, List.forall_mem_append]
      simp
      exact b5 e he
    · simp only [List.forall_mem_cons, List.forall_mem_append]
      simp [keepsArchive]
      intro ev hev
      exact ⟨(b6 ev hev).1, fun hs => ⟨tmpDir, (b6 ev hev).2.1 hs⟩, (b6 ev hev).2.2⟩

theorem findArchive_filter_keep (store : List (String × List (String × Bytes)))
    (f : String → Bool) (q : String) (hq : f q = true) :
    findArchive (store.filter (fun e => f e.1)) q = findArchive store q := by
  unfold findArchive
  rw [List.find?_filter]
  congr 2
  funext e
  by_cases h : e.1 = q <;> simp [h, hq]

theorem findArchive_filter_drop (store : List (String × List (String × Bytes)))
    (f : String → Bool) (q : String) (hq : f q = false) :
    findArchive (store.filter (fun e => f e.1)) q = none := by
  unfold findArchive
  rw [List.find?_filter]
  simp only [Option.map_eq_none', List.find?_eq_none]
  intro e _
  by_cases h : e.1 = q <;> simp [h, hq]

theorem findArchive_cons_filter (store : List (String × List (String × Bytes)))
    (p q : String) (files : List (String × Bytes)) :
    findArchive ((p, files) :: store.filter (fun e => e.1 ≠ p)) q =
      if p = q then some files else findArchive store q := by
  by_cases hpq : p = q
  · simp [findArchive, List.find?_cons, hpq]
  · have := findArchive_filter_keep store (fun s => s ≠ p) q (by simpa using fun h => hpq h.symm)
    simp only [findArchive, List.find?_cons, hpq, decide_False, ↓reduceIte] at this ⊢
    exact this

/-- In the cluster an operation that keeps the archive of `path` leaves it in the store. -/
theorem cluster_keeps (env : Env) (path : String) (o : Op) (w : World)
    (hk : keepsArchive path o) (hin : (findArchive w.store path).isSome) :
    (findArchive (cluster env o w).2.store path).isSome := by
  unfold cluster
  cases hf : (env.fault w o).bind o.fail with
  | some r => exact hin
  | none =>
    simp only
    cases o with
    | removeAll a => exact absurd hk (by simp [keepsArchive])
    | garbageCollect a t =>
      simp only [keepsArchive] at hk
      simp only [clusterStep]
      rw [findArchive_filter_keep _ (fun p => p = a.path || !inDirOf a.path p) path
        (by simp [hk])]
      exact hin
    | archive a dir =>
      simp only [clusterStep]
      rw [findArchive_cons_filter]
      split
      · rfl
      · exact hin
    | getKust ns name => simp only [clusterStep]; split <;> exact hin
    | getEA ns name => simp only [clusterStep]; split <;> exact hin
    | patchEA ea => simp only [clusterStep]; split <;> exact hin
    | patchEAStatus ea => simp only [clusterStep]; split <;> exact hin
    | patchKust k => simp only [clusterStep]; split <;> exact hin
    | deleteKust ns name => simp only [clusterStep]; split <;> exact hin
    | deleteEA ns name => simp only [clusterStep]; split <;> exact hin
    | readFile p => simp only [clusterStep]; split <;> exact hin
    | copyToPath a f d =>
      simp only [clusterStep]
      split
      · exact hin
      · split <;> exact hin
    | _ => exact hin

/-- In the cluster an archive operation that answers no error has put the archive in the store. -/
theorem cluster_archive (env : Env) (a : Artifact) (dir : String) (w : World)
    (hok : (Op.archive a dir).errOf (cluster env (.archive a dir) w).1 = none) :
    (findArchive (cluster env (.archive a dir) w).2.store a.path).isSome := by
  unfold cluster at hok ⊢
  cases hf : env.fault w (.archive a dir) with
  | some e => simp [hf, Op.fail, Op.errOf] at hok
  | none =>
    simp only [hf, Option.bind, clusterStep]
    rw [findArchive_cons_filter]
    simp

/-- In the cluster, a run whose operations all keep the archive of `path`
ends with that archive in the store, if the store held it at the start or an
archive operation for that path succeeded during the run. -/
theorem run_keeps_archive {α : Type} (env : Env) (path : String) (p : Prog α) (w : World)
    (hsafe : ∀ ev ∈ (run (cluster env) p w).trace, keepsArchive path ev.op)
    (hin : (findArchive w.store path).isSome ∨
      ∃ ev ∈ (run (cluster env) p w).trace, ev.err = none ∧
        ∃ a dir, ev.op = .archive a dir ∧ a.path = path) :
    (findArchive (run (cluster env) p w).world.store path).isSome := by
  induction p generalizing w with
  | ret a =>
    rcases hin with hin | ⟨ev, hev, _⟩
    · exact hin
    · simp at hev
  | op o k ih =>
    simp only [run_op] at hsafe hin ⊢
    apply ih
    · intro ev hev
      exact hsafe ev (List.mem_cons_of_mem _ hev)
    · rcases hin with hin | ⟨ev, hev, herr, a, dir, hop, hpath⟩
      · exact Or.inl (cluster_keeps env path o w (hsafe _ (List.mem_cons_self _ _)) hin)
      · rcases List.mem_cons.1 hev with h0 | h0
        · subst h0
          simp only at hop herr
          subst hop
          left
          rw [← hpath]
          exact cluster_archive env a dir w herr
        · exact Or.inr ⟨ev, h0, herr, a, dir, hop, hpath⟩

/-- C3. For valid inputs and against every backend, the operations of `Apply`
come in the order of its steps (stage and archive, ExternalArtifact patch and
status patch, Kustomization patch, convergence wait, garbage collection,
cleanup); once an operation failed nothing but the deferred cleanup follows,
and its error is what `Apply` returns; `Apply` succeeds only if every step ran
and none failed; garbage collection runs only after the wait returned success,
and its answer is then the result. In the modelled cluster, an artifact that was archived is still in the store when
`Apply` ends, whatever failed afterwards. -/
theorem Apply_steps_in_order {W : Type} (h : Handler W) (w : W) (c : FluxController)
    (name revision : String) (data : Bytes)
    (hd : data ≠ []) (hn : name ≠ "") (hr : revision ≠ "") :
    let r := run h (Apply c name revision data) w
    (∀ ev ∈ r.trace, 1 ≤ ev.op.step ∧ ev.op.step ≤ 10) ∧
    r.trace.Pairwise inApplyOrder ∧
    (r.val = none →
      (∀ ev ∈ r.trace, ev.err = none) ∧
      ∀ s, 1 ≤ s → s ≤ 10 → ∃ ev ∈ r.trace, ev.op.step = s) ∧
    (∀ ev ∈ r.trace, ∀ e, ev.err = some e → r.val = some e) ∧
    (∀ ev ∈ r.trace, ev.op.step = 9 →
      ev.err = r.val ∧
      ∃ w', (run h (waitForCurrentStatus (applyKust c name) revision) w').val = none) ∧
    (∀ (env : Env) (w0 : World),
      (∃ ev ∈ (run (cluster env) (Apply c name revision data) w0).trace,
        ev.op.step = 4 ∧ ev.err = none) →
      (findArchive (run (cluster env) (Apply c name revision data) w0).world.store
        (applyArtifact c name revision).path).isSome) := by
  intro r
  obtain ⟨a1, a2, a3, a4, a5, a6⟩ := Apply_run h w c name revision data hd hn hr
  refine ⟨a1, a2, ?_, a3, ?_, ?_⟩
  · intro hv
    refine ⟨?_, a4 hv⟩
    intro ev hev
    cases hee : ev.err with
    | none => rfl
    | some e =>
      have h1 : r.val = some e := a3 ev hev e hee
      rw [hv] at h1
      cases h1
  · intro ev hev hs
    refine ⟨?_, (a6 ev hev).2.2 hs⟩
    cases hv : r.val with
    | some e => exact a5 e hv ev hev hs
    | none =>
      cases hee : ev.err with
      | none => rfl
      | some e =>
        have h1 : r.val = some e := a3 ev hev e hee
        rw [hv] at h1
        cases h1
  · intro env w0 ⟨ev, hev, hs, herr⟩
    obtain ⟨_, _, _, _, _, c6⟩ := Apply_run (cluster env) w0 c name revision data hd hn hr
    apply run_keeps_archive env _ _ _ (fun ev hev => (c6 ev hev).1)
    obtain ⟨dir, hop⟩ := (c6 ev hev).2.1 hs
    exact Or.inr ⟨ev, hev, herr, _, dir, hop, rfl⟩

/-- C3, at the first `Apply` of the test on the empty cluster. -/
theorem Apply_steps_in_order_witness :
    (run (cluster {}) (Apply testController "foo" "dev-1" helloWorld) {}).trace.Pairwise
      inApplyOrder :=
  (Apply_steps_in_order (cluster {}) {} testController "foo" "dev-1" helloWorld
    (by decide) (by decide) (by decide)).2.1

/-- One poll of the convergence wait reports done exactly when the fetch
answers a Kustomization that is not at another revision, is not stalled, and
for which `kstatus.Compute` answers `Current`; its record is then the fetch
and the status computation. -/
theorem waitCondition_done {W : Type} (h : Handler W) (w : W) (kust : Kustomization)
    (revision : String) :
    (run h (waitCondition kust revision) w).val.1 = true ↔
      ∃ k, (h (.getKust kust.ns kust.name) w).1 = .ok k ∧
        (k.status.lastAttemptedRevision = "" ∨ k.status.lastAttemptedRevision = revision) ∧
        isStalled k = none ∧
        (h (.kstatus k) (h (.getKust kust.ns kust.name) w).2).1 = KStatus.current ∧
        (run h (waitCondition kust revision) w).trace =
          [⟨.getKust kust.ns kust.name, none⟩, ⟨.kstatus k, none⟩] := by
  unfold waitCondition
  simp only [run_call_bind]
  rcases hg : h (.getKust kust.ns kust.name) w with ⟨r1, w1⟩
  cases r1 with
  | error e => simp
  | ok k =>
    by_cases hs : k.status.lastAttemptedRevision ≠ "" ∧ k.status.lastAttemptedRevision ≠ revision
    · have : ¬ (k.status.lastAttemptedRevision = "" ∨ k.status.lastAttemptedRevision = revision) := by
        intro h'; rcases h' with h' | h'
        · exact hs.1 h'
        · exact hs.2 h'
      simp [hs, this]
    · have hs' : k.status.lastAttemptedRevision = "" ∨ k.status.lastAttemptedRevision = revision := by
        by_cases h1 : k.status.lastAttemptedRevision = ""
        · exact Or.inl h1
        · by_cases h2 : k.status.lastAttemptedRevision = revision
          · exact Or.inr h2
          · exact absurd ⟨h1, h2⟩ hs
      cases hst : isStalled k with
      | some e => simp [hs, hst]
      | none =>
        rcases hk : h (.kstatus k) w1 with ⟨r2, w2⟩
        cases r2 <;> simp [hs, hst, hk, Op.errOf] <;>
          first
            | exact ⟨k, rfl, hs', hst, by simp [hk], rfl⟩
            | (intro x hx; cases hx; intro _ _ hc; simp [hk] at hc)

theorem waitLoop_success {W : Type} (h : Handler W) (kust : Kustomization) (revision : String)
    (n : Nat) (w : W)
    (hv : (run h (pollUntilContextCancel (waitCondition kust revision) n) w).val = some none) :
    ∃ w' k pre, (h (.getKust kust.ns kust.name) w').1 = .ok k ∧
      (k.status.lastAttemptedRevision = "" ∨ k.status.lastAttemptedRevision = revision) ∧
      isStalled k = none ∧
      (h (.kstatus k) (h (.getKust kust.ns kust.name) w').2).1 = KStatus.current ∧
      (run h (pollUntilContextCancel (waitCondition kust revision) n) w).trace =
        pre ++ [⟨.getKust kust.ns kust.name, none⟩, ⟨.kstatus k, none⟩] := by
  induction n generalizing w with
  | zero => simp [pollUntilContextCancel] at hv
  | succ n ih =>
    rw [pollUntilContextCancel_succ] at hv ⊢
    by_cases hd : ((run h (waitCondition kust revision) w).val.2.isSome ||
        (run h (waitCondition kust revision) w).val.1) = true
    · simp only [hd, ↓reduceIte] at hv ⊢
      simp only [Option.some.injEq] at hv
      simp only [hv, Option.isSome_none, Bool.false_or] at hd
      obtain ⟨k, g1, g2, g3, g4, g5⟩ := (waitCondition_done h w kust revision).1 hd
      exact ⟨w, k, [], g1, g2, g3, g4, by simpa using g5⟩
    · simp only [hd] at hv ⊢
      simp only [Bool.false_eq_true, ↓reduceIte] at hv ⊢
      rcases ht : h .tick (run h (waitCondition kust revision) w).world with ⟨rt, w2⟩
      rw [ht] at hv
      cases rt with
      | some ce => simp at hv
      | none =>
        simp only at hv ⊢
        obtain ⟨w', k, pre, g1, g2, g3, g4, g5⟩ := ih w2 hv
        refine ⟨w', k, (run h (waitCondition kust revision) w).trace ++ ⟨.tick, none⟩ :: pre,
          g1, g2, g3, g4, ?_⟩
        rw [g5]
        simp

theorem kstatusGeneric_none (conds : List Condition) (hg : kstatusGeneric conds = none) :
    ∀ cond ∈ conds, ¬ (cond.type = "Reconciling" ∧ cond.status = "True") ∧
      ¬ (cond.type = "Stalled" ∧ cond.status = "True") := by
  induction conds with
  | nil => simp
  | cons c rest ih =>
    by_cases h1 : c.type = "Reconciling" ∧ c.status = "True"
    · simp [kstatusGeneric, h1] at hg
    · by_cases h2 : c.type = "Stalled" ∧ c.status = "True"
      · simp [kstatusGeneric, h1, h2] at hg
      · simp only [kstatusGeneric, h1, h2, ↓reduceIte] at hg
        intro cond hc
        rcases List.mem_cons.1 hc with h0 | h0
        · subst h0
          exact ⟨h1, h2⟩
        · exact ih hg cond h0

theorem kstatusGeneric_ne_current (conds : List Condition) :
    kstatusGeneric conds ≠ some KStatus.current := by
  induction conds with
  | nil => simp [kstatusGeneric]
  | cons c rest ih =>
    by_cases h1 : c.type = "Reconciling" ∧ c.status = "True"
    · simp [kstatusGeneric, h1]
    · by_cases h2 : c.type = "Stalled" ∧ c.status = "True"
      · simp [kstatusGeneric, h1, h2]
      · simpa only [kstatusGeneric, h1, h2, ↓reduceIte] using ih

theorem kstatusReady_current (conds : List Condition)
    (hr : kstatusReady conds = some KStatus.current) :
    ∃ pre cond post, conds = pre ++ cond :: post ∧ cond.type = "Ready" ∧ cond.status = "True" ∧
      ∀ x ∈ pre, x.type = "Ready" →
        x.status ≠ "True" ∧ x.status ≠ "False" ∧ x.status ≠ "Unknown" := by
  induction conds with
  | nil => simp [kstatusReady] at hr
  | cons c rest ih =>
    by_cases h1 : c.type = "Ready"
    · by_cases h2 : c.status = "True"
      · exact ⟨[], c, rest, rfl, h1, h2, by simp⟩
      · by_cases h3 : c.status = "False" ∨ c.status = "Unknown"
        · simp [kstatusReady, h1, h2, h3] at hr
        · simp only [kstatusReady, h1, h2, h3, ↓reduceIte] at hr
          obtain ⟨pre, cond, post, g1, g2, g3, g4⟩ := ih hr
          refine ⟨c :: pre, cond, post, by simp [g1], g2, g3, ?_⟩
          intro x hx hxr
          rcases List.mem_cons.1 hx with h0 | h0
          · subst h0
            exact ⟨h2, fun h => h3 (Or.inl h), fun h => h3 (Or.inr h)⟩
          · exact g4 x h0 hxr
    · simp only [kstatusReady, h1, ↓reduceIte] at hr
      obtain ⟨pre, cond, post, g1, g2, g3, g4⟩ := ih hr
      refine ⟨c :: pre, cond, post, by simp [g1], g2, g3, ?_⟩
      intro x hx hxr
      rcases List.mem_cons.1 hx with h0 | h0
      · subst h0
        exact absurd hxr h1
      · exact g4 x h0 hxr

theorem kstatusReady_none (conds : List Condition) (hr : kstatusReady conds = none) :
    ∀ cond ∈ conds, cond.type = "Ready" →
      cond.status ≠ "True" ∧ cond.status ≠ "False" ∧ cond.status ≠ "Unknown" := by
  induction conds with
  | nil => simp
  | cons c rest ih =>
    by_cases h1 : c.type = "Ready"
    · by_cases h2 : c.status = "True"
      · simp [kstatusReady, h1, h2] at hr
      · by_cases h3 : c.status = "False" ∨ c.status = "Unknown"
        · simp [kstatusReady, h1, h2, h3] at hr
        · simp only [kstatusReady, h1, h2, h3, ↓reduceIte] at hr
          intro cond hc hcr
          rcases List.mem_cons.1 hc with h0 | h0
          · subst h0
            exact ⟨h2, fun h => h3 (Or.inl h), fun h => h3 (Or.inr h)⟩
          · exact ih hr cond h0 hcr
    · simp only [kstatusReady, h1, ↓reduceIte] at hr
      intro cond hc hcr
      rcases List.mem_cons.1 hc with h0 | h0
      · subst h0
        exact absurd hcr h1
      · exact ih hr cond h0 hcr

/-- What the answer `Current` of the model of `kstatus.Compute` says of the
object: it is not being deleted; its observed generation, where both
generations are reported, is its generation; it has no true `Reconciling` or
`Stalled` condition; and its first `Ready` condition of status `True`, `False`
or `Unknown` is true, or it has no such `Ready` condition. -/
theorem kstatusCompute_current (k : Kustomization) (hc : kstatusCompute k = KStatus.current) :
    k.deleting = false ∧
    (∀ g, k.status.observedGeneration = some g → k.generation ≠ 0 → g ≠ 0 → g = k.generation) ∧
    (∀ cond ∈ k.status.conditions, ¬ (cond.type = "Reconciling" ∧ cond.status = "True") ∧
      ¬ (cond.type = "Stalled" ∧ cond.status = "True")) ∧
    ((∃ pre cond post, k.status.conditions = pre ++ cond :: post ∧
        cond.type = "Ready" ∧ cond.status = "True" ∧
        ∀ x ∈ pre, x.type = "Ready" →
          x.status ≠ "True" ∧ x.status ≠ "False" ∧ x.status ≠ "Unknown") ∨
      (∀ cond ∈ k.status.conditions, cond.type = "Ready" →
        cond.status ≠ "True" ∧ cond.status ≠ "False" ∧ cond.status ≠ "Unknown")) := by
  unfold kstatusCompute at hc
  by_cases hdel : k.deleting = true
  · simp [hdel] at hc
  · simp only [hdel, Bool.false_eq_true, ↓reduceIte] at hc
    by_cases hgen : k.generation ≠ 0 ∧
        k.status.observedGeneration.any (fun g => g ≠ 0 ∧ g ≠ k.generation) = true
    · rw [if_pos hgen] at hc
      cases hc
    · rw [if_neg hgen] at hc
      refine ⟨by simpa using hdel, ?_, ?_, ?_⟩
      · intro g hg h0 hg0
        by_contra hne
        exact hgen ⟨h0, by simp [hg, hg0, hne]⟩
      · cases hgc : kstatusGeneric k.status.conditions with
        | none => exact kstatusGeneric_none _ hgc
        | some s =>
          simp only [hgc] at hc
          subst hc
          exact absurd hgc (kstatusGeneric_ne_current _)
      · cases hgc : kstatusGeneric k.status.conditions with
        | some s =>
          simp only [hgc] at hc
          subst hc
          exact absurd hgc (kstatusGeneric_ne_current _)
        | none =>
          simp only [hgc] at hc
          cases hrc : kstatusReady k.status.conditions with
          | none => exact Or.inr (kstatusReady_none _ hrc)
          | some s =>
            simp only [hrc] at hc
            subst hc
            exact Or.inl (kstatusReady_current _ hrc)

/-- C4, amended. With `kstatus.Compute` answering as its model does, the
convergence wait returns success only when the poll that ends it fetched a
Kustomization whose `lastAttemptedRevision` is empty or equal to the requested
revision and whose `Ready` condition is true, or which has no `Ready`
condition of status `True`, `False` or `Unknown`; `kstatus.Compute` answers
`Current` for it, so it also has no true `Stalled` or `Reconciling` condition,
is not being deleted, and its observed generation, if reported, is its
generation. The record of the wait then ends with that fetch and the status
computation. A fetched Kustomization whose `lastAttemptedRevision` is set and
differs from the requested revision makes its poll report neither success nor
an error, whatever `kstatus.Compute` answers. -/
theorem wait_success_only_when {W : Type} (h : Handler W)
    (hk : ∀ k w, (h (.kstatus k) w).1 = kstatusCompute k)
    (kust : Kustomization) (revision : String) :
    (∀ w, (run h (waitForCurrentStatus kust revision) w).val = none →
      ∃ w' k pre, (h (.getKust kust.ns kust.name) w').1 = .ok k ∧
        (k.status.lastAttemptedRevision = "" ∨ k.status.lastAttemptedRevision = revision) ∧
        isStalled k = none ∧
        ((∃ before cond after, k.status.conditions = before ++ cond :: after ∧
            cond.type = "Ready" ∧ cond.status = "True" ∧
            ∀ x ∈ before, x.type = "Ready" →
              x.status ≠ "True" ∧ x.status ≠ "False" ∧ x.status ≠ "Unknown") ∨
          (∀ cond ∈ k.status.conditions, cond.type = "Ready" →
            cond.status ≠ "True" ∧ cond.status ≠ "False" ∧ cond.status ≠ "Unknown")) ∧
        kstatusCompute k = KStatus.current ∧
        (∀ cond ∈ k.status.conditions, ¬ (cond.type = "Reconciling" ∧ cond.status = "True") ∧
          ¬ (cond.type = "Stalled" ∧ cond.status = "True")) ∧
        k.deleting = false ∧
        (∀ g, k.status.observedGeneration = some g → k.generation ≠ 0 → g ≠ 0 →
          g = k.generation) ∧
        (run h (waitForCurrentStatus kust revision) w).trace =
          pre ++ [⟨.getKust kust.ns kust.name, none⟩, ⟨.kstatus k, none⟩]) ∧
    (∀ w k, (h (.getKust kust.ns kust.name) w).1 = .ok k →
      k.status.lastAttemptedRevision ≠ "" → k.status.lastAttemptedRevision ≠ revision →
      (run h (waitCondition kust revision) w).val = (false, none)) := by
  constructor
  · intro w hv
    unfold waitForCurrentStatus at hv ⊢
    rw [run_bind] at hv ⊢
    cases hl : (run h (pollUntilContextCancel (waitCondition kust revision)
        (pollBudget kust.spec.timeout)) w).val with
    | none => simp [hl] at hv
    | some res =>
      simp only [hl, run_pure] at hv
      subst hv
      obtain ⟨w', k, pre, g1, g2, g3, g4, g5⟩ :=
        waitLoop_success h kust revision (pollBudget kust.spec.timeout) w hl
      rw [hk] at g4
      obtain ⟨c1, c2, c3, c4⟩ := kstatusCompute_current k g4
      exact ⟨w', k, pre, g1, g2, g3, c4, g4, c3, c1, c2, by simp [hl, g5]⟩
  · intro w k hg h1 h2
    unfold waitCondition
    simp only [run_call_bind]
    rcases hg' : h (.getKust kust.ns kust.name) w with ⟨r1, w1⟩
    rw [hg'] at hg
    simp only at hg
    subst hg
    simp [h1, h2]

/-- C4, amended, in the cluster on a Kustomization whose `Ready` condition is
true: the cluster answers `kstatus.Compute` by its model, and the wait
succeeds. -/
theorem wait_success_only_when_witness :
    (∀ k w, (cluster {} (.kstatus k) w).1 = kstatusCompute k) ∧
    ∃ w' k pre, (cluster {} (.getKust "confighub" "foo") w').1 = .ok k ∧
      (k.status.lastAttemptedRevision = "" ∨ k.status.lastAttemptedRevision = "dev-1") ∧
      isStalled k = none ∧
      ((∃ before cond after, k.status.conditions = before ++ cond :: after ∧
          cond.type = "Ready" ∧ cond.status = "True" ∧
          ∀ x ∈ before, x.type = "Ready" →
            x.status ≠ "True" ∧ x.status ≠ "False" ∧ x.status ≠ "Unknown") ∨
        (∀ cond ∈ k.status.conditions, cond.type = "Ready" →
          cond.status ≠ "True" ∧ cond.status ≠ "False" ∧ cond.status ≠ "Unknown")) ∧
      kstatusCompute k = KStatus.current ∧
      (∀ cond ∈ k.status.conditions, ¬ (cond.type = "Reconciling" ∧ cond.status = "True") ∧
        ¬ (cond.type = "Stalled" ∧ cond.status = "True")) ∧
      k.deleting = false ∧
      (∀ g, k.status.observedGeneration = some g → k.generation ≠ 0 → g ≠ 0 →
        g = k.generation) ∧
      (run (cluster {}) (waitForCurrentStatus (applyKust testController "foo") "dev-1")
          { kusts := [readyKust] }).trace =
        pre ++ [⟨.getKust "confighub" "foo", none⟩, ⟨.kstatus k, none⟩] :=
  ⟨fun _ _ => rfl,
    (wait_success_only_when (cluster {}) (fun _ _ => rfl) (applyKust testController "foo")
      "dev-1").1 { kusts := [readyKust] } (by decide)⟩

/-- C4 as stated fails: with a Kustomization whose `Ready` condition is true
and whose `lastAttemptedRevision` is empty, not the requested `dev-1`, the
wait returns success; and so it does on the Kustomization a first `Apply` has
just created, which has no `Ready` condition at all. -/
theorem wait_succeeds_on_empty_revision :
    (run (cluster {}) (waitForCurrentStatus (applyKust testController "foo") "dev-1")
      { kusts := [readyKust] }).val = none ∧
    readyKust.status.lastAttemptedRevision ≠ "dev-1" ∧
    (run (cluster {}) (waitForCurrentStatus (applyKust testController "foo") "dev-1")
      { kusts := [{ name := "foo", ns := "confighub", generation := 1 }] }).val = none := by
  decide

theorem isStalled_go_isSome (conds : List Condition) :
    (isStalled.go conds).isSome ↔
      ∃ cond ∈ conds, cond.type = "Stalled" ∧ cond.status = "True" := by
  induction conds with
  | nil => simp [isStalled.go]
  | cons cond rest ih =>
    by_cases hc : cond.type = "Stalled" ∧ cond.status = "True"
    · simp [isStalled.go, hc]
    · simp only [isStalled.go, hc, ↓reduceIte, ih]
      constructor
      · rintro ⟨x, hx, h1⟩
        exact ⟨x, List.mem_cons_of_mem _ hx, h1⟩
      · rintro ⟨x, hx, h1⟩
        rcases List.mem_cons.1 hx with h0 | h0
        · subst h0
          exact absurd h1 hc
        · exact ⟨x, h0, h1⟩

theorem isStalled_go_message (conds : List Condition) (e : Err)
    (he : isStalled.go conds = some e) :
    ∃ cond ∈ conds, cond.type = "Stalled" ∧ cond.status = "True" ∧ e = Err.new cond.message := by
  induction conds with
  | nil => simp [isStalled.go] at he
  | cons cond rest ih =>
    by_cases hc : cond.type = "Stalled" ∧ cond.status = "True"
    · simp only [isStalled.go, hc, and_self, ↓reduceIte, Option.some.injEq] at he
      exact ⟨cond, List.mem_cons_self _ _, hc.1, hc.2, he.symm⟩
    · simp only [isStalled.go, hc, ↓reduceIte] at he
      obtain ⟨x, hx, h1⟩ := ih he
      exact ⟨x, List.mem_cons_of_mem _ hx, h1⟩

theorem isStalled_go_find (conds : List Condition) :
    isStalled.go conds =
      (conds.find? (fun cond => cond.type = "Stalled" ∧ cond.status = "True")).map
        (fun cond => Err.new cond.message) := by
  induction conds with
  | nil => rfl
  | cons cond rest ih =>
    by_cases hc : cond.type = "Stalled" ∧ cond.status = "True"
    · simp [isStalled.go, hc]
    · simp only [isStalled.go, hc, ↓reduceIte, ih]
      rw [List.find?_cons_of_neg _ (by simpa using hc)]

theorem isStalled_go_first (pre post : List Condition) (cond : Condition)
    (hpre : ∀ x ∈ pre, ¬ (x.type = "Stalled" ∧ x.status = "True"))
    (h1 : cond.type = "Stalled") (h2 : cond.status = "True") :
    isStalled.go (pre ++ cond :: post) = some (Err.new cond.message) := by
  induction pre with
  | nil => simp [isStalled.go, h1, h2]
  | cons x rest ih =>
    have hx := hpre x (List.mem_cons_self _ _)
    simp only [List.cons_append, isStalled.go, hx, ↓reduceIte]
    exact ih (fun y hy => hpre y (List.mem_cons_of_mem _ hy))

/-- C5, amended. `isStalled` returns an error exactly when a condition of type
`Stalled` with status `True` exists, and the error's text is the message of
the first such condition in the list: of the condition that no true `Stalled`
condition precedes. In the convergence wait, a poll that fetches a stalled
Kustomization whose `lastAttemptedRevision` is empty or the requested revision
ends the wait at once with that error, whatever budget is left: the record of
the loop from there is the fetch alone. A poll that fetches a Kustomization
still at another revision reports neither success nor an error, stalled or
not. -/
theorem wait_aborts_when_stalled {W : Type} (h : Handler W) (kust : Kustomization)
    (revision : String) :
    (∀ k, (isStalled k = none ↔
        ¬ ∃ cond ∈ k.status.conditions, cond.type = "Stalled" ∧ cond.status = "True") ∧
      isStalled k =
        (k.status.conditions.find? (fun cond => cond.type = "Stalled" ∧ cond.status = "True")).map
          (fun cond => Err.new cond.message) ∧
      ∀ before cond after, k.status.conditions = before ++ cond :: after →
        (∀ x ∈ before, ¬ (x.type = "Stalled" ∧ x.status = "True")) →
        cond.type = "Stalled" → cond.status = "True" →
        isStalled k = some (Err.new cond.message)) ∧
    (∀ w k n before cond after, (h (.getKust kust.ns kust.name) w).1 = .ok k →
      (k.status.lastAttemptedRevision = "" ∨ k.status.lastAttemptedRevision = revision) →
      k.status.conditions = before ++ cond :: after →
      (∀ x ∈ before, ¬ (x.type = "Stalled" ∧ x.status = "True")) →
      cond.type = "Stalled" → cond.status = "True" →
      run h (pollUntilContextCancel (waitCondition kust revision) (n + 1)) w =
        ⟨some (some (Err.new cond.message)), (h (.getKust kust.ns kust.name) w).2,
          [⟨.getKust kust.ns kust.name, none⟩]⟩) ∧
    (∀ w k n, (h (.getKust kust.ns kust.name) w).1 = .ok k →
      (k.status.lastAttemptedRevision = "" ∨ k.status.lastAttemptedRevision = revision) →
      (∃ cond ∈ k.status.conditions, cond.type = "Stalled" ∧ cond.status = "True") →
      ∃ before cond after, k.status.conditions = before ++ cond :: after ∧
        (∀ x ∈ before, ¬ (x.type = "Stalled" ∧ x.status = "True")) ∧
        cond.type = "Stalled" ∧ cond.status = "True" ∧
        run h (pollUntilContextCancel (waitCondition kust revision) (n + 1)) w =
          ⟨some (some (Err.new cond.message)), (h (.getKust kust.ns kust.name) w).2,
            [⟨.getKust kust.ns kust.name, none⟩]⟩) ∧
    (∀ w k, (h (.getKust kust.ns kust.name) w).1 = .ok k →
      k.status.lastAttemptedRevision ≠ "" → k.status.lastAttemptedRevision ≠ revision →
      run h (waitCondition kust revision) w =
        ⟨(false, none), (h (.getKust kust.ns kust.name) w).2,
          [⟨.getKust kust.ns kust.name, none⟩]⟩) := by
  have hrun : ∀ w k n before cond after, (h (.getKust kust.ns kust.name) w).1 = .ok k →
      (k.status.lastAttemptedRevision = "" ∨ k.status.lastAttemptedRevision = revision) →
      k.status.conditions = before ++ cond :: after →
      (∀ x ∈ before, ¬ (x.type = "Stalled" ∧ x.status = "True")) →
      cond.type = "Stalled" → cond.status = "True" →
      run h (pollUntilContextCancel (waitCondition kust revision) (n + 1)) w =
        ⟨some (some (Err.new cond.message)), (h (.getKust kust.ns kust.name) w).2,
          [⟨.getKust kust.ns kust.name, none⟩]⟩ := by
    intro w k n before cond after hg hrev hsplit hpre h1 h2
    have he : isStalled k = some (Err.new cond.message) := by
      unfold isStalled
      rw [hsplit]
      exact isStalled_go_first before after cond hpre h1 h2
    have hnot : ¬ (k.status.lastAttemptedRevision ≠ "" ∧
        k.status.lastAttemptedRevision ≠ revision) := by
      intro h'
      rcases hrev with h0 | h0
      · exact h'.1 h0
      · exact h'.2 h0
    have hcond : run h (waitCondition kust revision) w =
        ⟨(false, some (Err.new cond.message)), (h (.getKust kust.ns kust.name) w).2,
          [⟨.getKust kust.ns kust.name, none⟩]⟩ := by
      unfold waitCondition
      simp only [run_call_bind]
      rcases hg' : h (.getKust kust.ns kust.name) w with ⟨r1, w1⟩
      rw [hg'] at hg
      simp only at hg
      subst hg
      simp [hnot, he, Op.errOf]
    rw [pollUntilContextCancel_succ, hcond]
    simp
  refine ⟨?_, hrun, ?_, ?_⟩
  · intro k
    refine ⟨?_, isStalled_go_find _, ?_⟩
    · rw [← isStalled_go_isSome]
      unfold isStalled
      cases isStalled.go k.status.conditions <;> simp
    · intro before cond after hsplit hpre h1 h2
      unfold isStalled
      rw [hsplit]
      exact isStalled_go_first before after cond hpre h1 h2
  · intro w k n hg hrev hst
    obtain ⟨cond0, hc0, hp0⟩ := hst
    have hsome : (k.status.conditions.find?
        (fun cond => cond.type = "Stalled" ∧ cond.status = "True")).isSome = true := by
      rw [List.find?_isSome]
      exact ⟨cond0, hc0, by simpa using hp0⟩
    obtain ⟨cond, hfind⟩ := Option.isSome_iff_exists.1 hsome
    obtain ⟨hp, before, after, hsplit, hpre⟩ := List.find?_eq_some.1 hfind
    have hp' : cond.type = "Stalled" ∧ cond.status = "True" := by simpa using hp
    have hpre' : ∀ x ∈ before, ¬ (x.type = "Stalled" ∧ x.status = "True") := by
      intro x hx hh
      have := hpre x hx
      simp [hh.1, hh.2] at this
    exact ⟨before, cond, after, hsplit, hpre', hp'.1, hp'.2,
      hrun w k n before cond after hg hrev hsplit hpre' hp'.1 hp'.2⟩
  · intro w k hg h1 h2
    unfold waitCondition
    simp only [run_call_bind]
    rcases hg' : h (.getKust kust.ns kust.name) w with ⟨r1, w1⟩
    rw [hg'] at hg
    simp only at hg
    subst hg
    simp [h1, h2, Op.errOf]

/-- C5 as stated fails: the Kustomization is stalled, but at revision `dev-1`
while `dev-2` is awaited; the poll that fetches it reports neither done nor an
error, and the wait goes on until its deadline instead of returning the
condition's message. -/
theorem wait_ignores_stale_stall :
    (∃ cond ∈ stalledStaleKust.status.conditions,
      cond.type = "Stalled" ∧ cond.status = "True") ∧
    (run (cluster {}) (waitCondition (applyKust testController "foo") "dev-2")
      { kusts := [stalledStaleKust] }).val = (false, none) ∧
    (run (cluster {}) (waitForCurrentStatus (applyKust testController "foo") "dev-2")
      { kusts := [stalledStaleKust] }).val = some Err.deadlineExceeded := by
  refine ⟨by decide, by decide, by decide⟩

/-! ## Runs without faults -/

theorem cluster_eq_step_of_ok (env : Env) (o : Op) (w : World)
    (hok : o.errOf (cluster env o w).1 = none) : cluster env o w = clusterStep env o w := by
  unfold cluster at hok ⊢
  cases hf : env.fault w o with
  | none => simp
  | some e =>
    cases o <;> simp [hf, Op.fail, Op.errOf] at hok ⊢

theorem run_cluster_of_ok {α : Type} (env : Env) (p : Prog α) (w : World)
    (hok : ∀ ev ∈ (run (cluster env) p w).trace, ev.err = none) :
    run (cluster env) p w = run (clusterStep env) p w := by
  induction p generalizing w with
  | ret a => rfl
  | op o k ih =>
    simp only [run_op] at hok ⊢
    have h0 : o.errOf (cluster env o w).1 = none := hok _ (List.mem_cons_self _ _)
    have h1 := cluster_eq_step_of_ok env o w h0
    have h2 := ih (cluster env o w).1 (cluster env o w).2
      (fun ev hev => hok ev (List.mem_cons_of_mem _ hev))
    rw [h2, h1]

/-! ## The wait in the cluster -/

theorem waitCondition_cluster (env : Env) (kust : Kustomization) (revision : String)
    (w : World) :
    (run (clusterStep env) (waitCondition kust revision) w).world = w ∧
    ((run (clusterStep env) (waitCondition kust revision) w).val.1 = true →
      ∃ k, findKust w.kusts kust.ns kust.name = some k) := by
  constructor
  · unfold waitCondition
    simp only [run_call_bind]
    cases hk : findKust w.kusts kust.ns kust.name with
    | none => simp [clusterStep, hk]
    | some k =>
      simp only [clusterStep, hk]
      split
      · rfl
      · split
        · rfl
        · simp only [run_call_bind, clusterStep]
          cases kstatusCompute k <;> rfl
  · intro hd
    obtain ⟨k, g1, _⟩ := (waitCondition_done (clusterStep env) w kust revision).1 hd
    cases hk : findKust w.kusts kust.ns kust.name with
    | none => simp [clusterStep, hk] at g1
    | some k' => exact ⟨k', rfl⟩

theorem waitLoop_cluster (env : Env) (kust : Kustomization) (revision : String) (n : Nat)
    (w : World) :
    let r := run (clusterStep env) (pollUntilContextCancel (waitCondition kust revision) n) w
    r.world.eas = w.eas ∧ r.world.store = w.store ∧ r.world.tmp = w.tmp ∧
    r.world.nextTmp = w.nextTmp ∧
    (r.val = some none → ∃ k, findKust r.world.kusts kust.ns kust.name = some k) := by
  induction n generalizing w with
  | zero => simp [pollUntilContextCancel]
  | succ n ih =>
    intro r
    show _ ∧ _ ∧ _ ∧ _ ∧ _
    simp only [r]
    rw [pollUntilContextCancel_succ]
    obtain ⟨c1, c2⟩ := waitCondition_cluster env kust revision w
    by_cases hd : ((run (clusterStep env) (waitCondition kust revision) w).val.2.isSome ||
        (run (clusterStep env) (waitCondition kust revision) w).val.1) = true
    · simp only [hd, ↓reduceIte, c1, true_and]
      intro hv
      simp only [Option.some.injEq] at hv
      simp only [hv, Option.isSome_none, Bool.false_or] at hd
      exact c2 hd
    · simp only [hd, c1]
      simp only [Bool.false_eq_true, ↓reduceIte, clusterStep]
      obtain ⟨i1, i2, i3, i4, i5⟩ := ih { w with kusts := env.reconcile w }
      exact ⟨i1, i2, i3, i4, i5⟩

theorem waitForCurrentStatus_cluster (env : Env) (kust : Kustomization) (revision : String)
    (w : World) :
    let r := run (clusterStep env) (waitForCurrentStatus kust revision) w
    r.world.eas = w.eas ∧ r.world.store = w.store ∧ r.world.tmp = w.tmp ∧
    r.world.nextTmp = w.nextTmp ∧
    (r.val = none → ∃ k, findKust r.world.kusts kust.ns kust.name = some k) := by
  intro r
  show _ ∧ _ ∧ _ ∧ _ ∧ _
  simp only [r]
  unfold waitForCurrentStatus
  rw [run_bind]
  obtain ⟨i1, i2, i3, i4, i5⟩ := waitLoop_cluster env kust revision (pollBudget kust.spec.timeout) w
  cases hl : (run (clusterStep env) (pollUntilContextCancel (waitCondition kust revision)
      (pollBudget kust.spec.timeout)) w).val with
  | none => simp [i1, i2, i3, i4]
  | some res =>
    simp only [run_pure]
    refine ⟨i1, i2, i3, i4, ?_⟩
    intro hv
    subst hv
    exact i5 hl

/-! ## Paths -/

theorem splitSlash_ne_nil (p : List Char) : splitSlash p ≠ [] := by
  cases p with
  | nil => simp [splitSlash]
  | cons ch rest =>
    unfold splitSlash
    split
    · simp
    · split <;> simp

theorem splitSlash_append (a b : List Char) :
    splitSlash (a ++ '/' :: b) = splitSlash a ++ splitSlash b := by
  induction a with
  | nil => simp [splitSlash]
  | cons ch rest ih =>
    by_cases hc : ch = '/'
    · simp [splitSlash, hc, ih]
    · cases hs : splitSlash rest with
      | nil => exact absurd hs (splitSlash_ne_nil rest)
      | cons e es => simp [splitSlash, hc, ih, hs]

theorem splitSlash_noSlash (f : List Char) (hf : '/' ∉ f) : splitSlash f = [f] := by
  induction f with
  | nil => simp [splitSlash]
  | cons ch rest ih =>
    simp only [List.mem_cons, not_or] at hf
    have hc : ch ≠ '/' := fun h => hf.1 h.symm
    simp [splitSlash, hc, ih hf.2]

theorem splitSlash_joinSlash (es : List (List Char)) (hne : es ≠ [])
    (hall : ∀ e ∈ es, '/' ∉ e) : splitSlash (joinSlash es) = es := by
  induction es with
  | nil => exact absurd rfl hne
  | cons e rest ih =>
    cases rest with
    | nil => simpa [joinSlash] using splitSlash_noSlash e (hall e (by simp))
    | cons e2 rest2 =>
      have h1 := splitSlash_noSlash e (hall e (by simp))
      have h2 := ih (by simp) (fun x hx => hall x (List.mem_cons_of_mem _ hx))
      simp only [joinSlash, splitSlash_append, h1] at h2 ⊢
      rw [h2]; rfl

theorem cleanStep_plain (rooted : Bool) (stack : List (List Char)) (e : List Char)
    (he : plainChars e) : cleanStep rooted stack e = e :: stack := by
  obtain ⟨h1, _, h3, h4⟩ := he
  simp [cleanStep, h1, h3, h4]

theorem foldl_cleanStep_plain (rooted : Bool) (es stack : List (List Char))
    (hall : ∀ e ∈ es, plainChars e) :
    es.foldl (cleanStep rooted) stack = es.reverse ++ stack := by
  induction es generalizing stack with
  | nil => simp
  | cons e rest ih =>
    simp only [List.foldl_cons, cleanStep_plain rooted stack e (hall e (by simp))]
    rw [ih _ (fun x hx => hall x (List.mem_cons_of_mem _ hx))]
    simp

theorem joinSlash_head (es : List (List Char)) (hne : es ≠ [])
    (hall : ∀ e ∈ es, plainChars e) :
    joinSlash es ≠ [] ∧ (joinSlash es).head? ≠ some '/' := by
  cases es with
  | nil => exact absurd rfl hne
  | cons e rest =>
    obtain ⟨h1, h2, _, _⟩ := hall e (by simp)
    cases e with
    | nil => exact absurd rfl h1
    | cons ch cs =>
      have hc : ch ≠ '/' := fun h => h2 (by simp [h])
      cases rest <;> simp [joinSlash, hc]

/-- A relative path of plain elements is clean. -/
theorem pathClean_plain_rel (es : List (List Char)) (hne : es ≠ [])
    (hall : ∀ e ∈ es, plainChars e) :
    pathClean (String.mk (joinSlash es)) = String.mk (joinSlash es) := by
  obtain ⟨h1, h2⟩ := joinSlash_head es hne hall
  have hs := splitSlash_joinSlash es hne (fun e he => (hall e he).2.1)
  simp [pathClean, h1, h2, hs, foldl_cleanStep_plain _ es [] hall]

/-- A rooted path of plain elements is clean. -/
theorem pathClean_plain_abs (es : List (List Char)) (hne : es ≠ [])
    (hall : ∀ e ∈ es, plainChars e) :
    pathClean (String.mk ('/' :: joinSlash es)) = String.mk ('/' :: joinSlash es) := by
  have hs := splitSlash_joinSlash es hne (fun e he => (hall e he).2.1)
  have hsp : splitSlash ('/' :: joinSlash es) = [] :: es := by
    simp [splitSlash, hs]
  have hst : cleanStep true [] [] = [] := by simp [cleanStep]
  simp [pathClean, hsp, hst, foldl_cleanStep_plain _ es [] hall]

theorem toDigitsCore_digits (fuel n : Nat) (ds : List Char)
    (hds : ∀ ch ∈ ds, ch.isDigit = true) :
    ∀ ch ∈ Nat.toDigitsCore 10 fuel n ds, ch.isDigit = true := by
  induction fuel generalizing n ds with
  | zero => simpa [Nat.toDigitsCore] using hds
  | succ fuel ih =>
    have hd : (Nat.digitChar (n % 10)).isDigit = true := by
      have hlt : n % 10 < 10 := Nat.mod_lt _ (by decide)
      generalize n % 10 = m at hlt
      interval_cases m <;> decide
    have hds2 : ∀ ch ∈ Nat.digitChar (n % 10) :: ds, ch.isDigit = true := by
      intro ch hch
      rcases List.mem_cons.mp hch with h | h
      · rw [h]; exact hd
      · exact hds ch h
    by_cases hz : n / 10 = 0
    · simpa [Nat.toDigitsCore, hz] using hds2
    · simp only [Nat.toDigitsCore, hz, ↓reduceIte]
      exact ih _ _ hds2

theorem toDigitsCore_ne_nil (fuel n : Nat) (ds : List Char) :
    Nat.toDigitsCore 10 (fuel + 1) n ds ≠ [] := by
  induction fuel generalizing n ds with
  | zero =>
    by_cases hz : n / 10 = 0 <;> simp [Nat.toDigitsCore, hz]
  | succ fuel ih =>
    by_cases hz : n / 10 = 0
    · simp [Nat.toDigitsCore, hz]
    · have h := ih (n / 10) (Nat.digitChar (n % 10) :: ds)
      rw [Nat.toDigitsCore]
      simpa [hz] using h

/-- The decimal text of a number is one plain path element. -/
theorem plainChars_toString (n : Nat) : plainChars (toString n).data := by
  have hd : ∀ ch ∈ (toString n).data, ch.isDigit = true := by
    show ∀ ch ∈ (Nat.repr n).data, _
    simp only [Nat.repr, List.asString, Nat.toDigits]
    exact toDigitsCore_digits _ _ [] (by simp)
  have hne : (toString n).data ≠ [] := by
    show (Nat.repr n).data ≠ []
    simp only [Nat.repr, List.asString, Nat.toDigits]
    exact toDigitsCore_ne_nil _ _ _
  refine ⟨hne, fun h => absurd (hd _ h) (by decide), ?_, ?_⟩
  · intro h
    have := hd '.' (by rw [h]; simp)
    exact absurd this (by decide)
  · intro h
    have := hd '.' (by rw [h]; simp)
    exact absurd this (by decide)

/-- A file name joined to a temporary directory of the model is the directory,
a slash, and the name. -/
theorem pathJoin_tmp (n : Nat) :
    pathJoin ("/tmp/" ++ toString n) dataFileName
      = "/tmp/" ++ toString n ++ "/" ++ dataFileName := by
  have hall : ∀ e ∈ ["tmp".data, (toString n).data, dataFileName.data], plainChars e := by
    intro e he
    simp only [List.mem_cons, List.mem_singleton, List.not_mem_nil, or_false] at he
    rcases he with h | h | h
    · rw [h]; decide
    · rw [h]; exact plainChars_toString n
    · rw [h]; decide
  have hc := pathClean_plain_abs _ (by simp) hall
  have hne : (toString n).data ≠ [] := (plainChars_toString n).1
  have hp : pathJoin ("/tmp/" ++ toString n) dataFileName
      = pathClean (String.mk ('/' :: joinSlash ["tmp".data, (toString n).data, dataFileName.data])) := by
    simp [pathJoin, pathJoinList, joinSlash, dataFileName, String.data_append]
  rw [hp, hc]
  apply String.ext
  simp [joinSlash, dataFileName, String.data_append]

theorem pathJoinList_plain (es : List String) (hne : es ≠ [])
    (hall : ∀ e ∈ es, plainElem e) :
    pathJoinList es = String.mk (joinSlash (es.map String.data)) := by
  have hall2 : ∀ e ∈ es.map String.data, plainChars e := by
    intro e he
    obtain ⟨s, hs, rfl⟩ := List.mem_map.mp he
    exact hall s hs
  have hf : (es.map String.data).filter (fun e => e ≠ []) = es.map String.data := by
    rw [List.filter_eq_self]
    intro e he
    simpa using (hall2 e he).1
  have hne2 : es.map String.data ≠ [] := by simpa using hne
  simp only [pathJoinList, hf]
  rw [if_neg hne2]
  exact pathClean_plain_rel _ hne2 hall2

theorem inDir_pathJoin (dir file : String) (hp : pathJoin dir file = dir ++ "/" ++ file) :
    inDir dir (pathJoin dir file) = true := by
  unfold inDir
  rw [hp, List.isPrefixOf_iff_prefix]
  exact ⟨file.data, by simp [String.data_append]⟩

theorem relTo_pathJoin (dir file : String) (hp : pathJoin dir file = dir ++ "/" ++ file) :
    relTo dir (pathJoin dir file) = file := by
  unfold relTo
  rw [hp]
  have : (dir ++ "/" ++ file).data.drop (dir.data.length + 1) = file.data := by
    rw [show (dir ++ "/" ++ file).data = (dir.data ++ ['/']) ++ file.data by
      simp [String.data_append]]
    rw [List.drop_left' (by simp)]
  rw [this]

/-! ## Object lookups -/

theorem findEA_map (eas : List ExternalArtifact) (ns name : String)
    (f : ExternalArtifact → ExternalArtifact)
    (hf : ∀ x, x.ns = ns ∧ x.name = name → (f x).ns = ns ∧ (f x).name = name) :
    findEA (eas.map (fun x => if x.ns = ns ∧ x.name = name then f x else x)) ns name =
      (findEA eas ns name).map f := by
  unfold findEA
  induction eas with
  | nil => rfl
  | cons x xs ih =>
    by_cases hx : x.ns = ns ∧ x.name = name
    · have : (f x).ns = ns ∧ (f x).name = name := hf x hx
      simp [List.find?_cons, hx, this]
    · simp only [List.map_cons, hx, ↓reduceIte, List.find?_cons, decide_False]
      exact ih

theorem findEA_key (eas : List ExternalArtifact) (ns name : String) (ea : ExternalArtifact)
    (h : findEA eas ns name = some ea) : ea.ns = ns ∧ ea.name = name := by
  have := List.find?_some h
  simpa using this

theorem findKust_map (kusts : List Kustomization) (ns name : String)
    (f : Kustomization → Kustomization)
    (hf : ∀ x, x.ns = ns ∧ x.name = name → (f x).ns = ns ∧ (f x).name = name) :
    findKust (kusts.map (fun x => if x.ns = ns ∧ x.name = name then f x else x)) ns name =
      (findKust kusts ns name).map f := by
  unfold findKust
  induction kusts with
  | nil => rfl
  | cons x xs ih =>
    by_cases hx : x.ns = ns ∧ x.name = name
    · have : (f x).ns = ns ∧ (f x).name = name := hf x hx
      simp [List.find?_cons, hx, this]
    · simp only [List.map_cons, hx, ↓reduceIte, List.find?_cons, decide_False]
      exact ih

theorem findKust_key (kusts : List Kustomization) (ns name : String) (k : Kustomization)
    (h : findKust kusts ns name = some k) : k.ns = ns ∧ k.name = name := by
  have := List.find?_some h
  simpa using this

theorem findFile_head (file : String) (data : Bytes) (rest : List (String × Bytes)) :
    findFile ((file, data) :: rest) file = some data := by
  simp [findFile, List.find?_cons]

/-! ## Effects of single operations in the cluster -/

theorem cs_writeFile (env : Env) (p : String) (d : Bytes) (w : World) :
    (clusterStep env (.writeFile p d) w).1 = none ∧
    (clusterStep env (.writeFile p d) w).2.kusts = w.kusts ∧
    (clusterStep env (.writeFile p d) w).2.eas = w.eas ∧
    (clusterStep env (.writeFile p d) w).2.store = w.store ∧
    (clusterStep env (.writeFile p d) w).2.tmp = (p, d) :: w.tmp.filter (fun e => e.1 ≠ p) :=
  ⟨rfl, rfl, rfl, rfl, rfl⟩

theorem cs_archive (env : Env) (a : Artifact) (dir : String) (w : World) :
    (clusterStep env (.archive a dir) w).2.kusts = w.kusts ∧
    (clusterStep env (.archive a dir) w).2.eas = w.eas ∧
    (clusterStep env (.archive a dir) w).2.store =
      (a.path, (w.tmp.filter (fun e => inDir dir e.1)).map (fun e => (relTo dir e.1, e.2))) ::
        w.store.filter (fun e => e.1 ≠ a.path) :=
  ⟨rfl, rfl, rfl⟩

theorem cs_patchEA (env : Env) (ea : ExternalArtifact) (w : World) :
    (clusterStep env (.patchEA ea) w).2.kusts = w.kusts ∧
    (clusterStep env (.patchEA ea) w).2.store = w.store ∧
    ∃ e, findEA (clusterStep env (.patchEA ea) w).2.eas ea.ns ea.name = some e := by
  simp only [clusterStep]
  cases he : findEA w.eas ea.ns ea.name with
  | none =>
    refine ⟨rfl, rfl, ?_⟩
    simp [findEA, List.find?_cons]
  | some old =>
    refine ⟨rfl, rfl, ?_⟩
    simp only
    rw [findEA_map w.eas ea.ns ea.name
      (fun _ => { old with labels := mergeLabels ea.labels old.labels })
      (fun _ _ => findEA_key w.eas ea.ns ea.name old he)]
    simp [he]

theorem cs_patchEAStatus (env : Env) (ea : ExternalArtifact) (w : World)
    (hok : (clusterStep env (.patchEAStatus ea) w).1 = none) :
    (clusterStep env (.patchEAStatus ea) w).2.kusts = w.kusts ∧
    (clusterStep env (.patchEAStatus ea) w).2.store = w.store ∧
    ∃ e, findEA (clusterStep env (.patchEAStatus ea) w).2.eas ea.ns ea.name = some e ∧
      e.status = ea.status := by
  simp only [clusterStep] at hok ⊢
  cases he : findEA w.eas ea.ns ea.name with
  | none => simp [he] at hok
  | some old =>
    refine ⟨rfl, rfl, ?_⟩
    simp only
    rw [findEA_map w.eas ea.ns ea.name (fun x => { x with status := ea.status })
      (fun _ hx => hx)]
    simp [he]

theorem cs_patchKust (env : Env) (k : Kustomization) (w : World) :
    (clusterStep env (.patchKust k) w).2.eas = w.eas ∧
    (clusterStep env (.patchKust k) w).2.store = w.store := by
  simp only [clusterStep]
  cases findKust w.kusts k.ns k.name <;> exact ⟨rfl, rfl⟩

theorem cs_garbageCollect (env : Env) (a : Artifact) (t : Nat) (w : World) :
    (clusterStep env (.garbageCollect a t) w).2.kusts = w.kusts ∧
    (clusterStep env (.garbageCollect a t) w).2.eas = w.eas ∧
    (clusterStep env (.garbageCollect a t) w).2.store =
      w.store.filter (fun e => e.1 = a.path || !inDirOf a.path e.1) :=
  ⟨rfl, rfl, rfl⟩

/-! ## A successful Apply in the cluster -/

theorem applyBody_cluster (env : Env) (c : FluxController) (name revision : String)
    (data : Bytes) (tmpDir : String) (w : World)
    (htmp : pathJoin tmpDir dataFileName = tmpDir ++ "/" ++ dataFileName)
    (hv : (run (clusterStep env) (applyBody c name revision data tmpDir) w).val = none) :
    (∃ ea digest size, findEA (run (clusterStep env)
        (applyBody c name revision data tmpDir) w).world.eas c.ns name = some ea ∧
      ea.status.artifact = some (archived (applyArtifact c name revision) digest size)) ∧
    (∃ files, findArchive (run (clusterStep env)
        (applyBody c name revision data tmpDir) w).world.store
        (applyArtifact c name revision).path = some files ∧
      findFile files dataFileName = some data) ∧
    (∀ p, p ≠ (applyArtifact c name revision).path →
      inDirOf (applyArtifact c name revision).path p = true →
      findArchive (run (clusterStep env)
        (applyBody c name revision data tmpDir) w).world.store p = none) ∧
    (∃ k, findKust (run (clusterStep env)
        (applyBody c name revision data tmpDir) w).world.kusts c.ns name = some k) := by
  unfold applyBody at hv ⊢
  simp only [run_call_bind] at hv ⊢
  have q1 := cs_writeFile env (pathJoin tmpDir dataFileName) data w
  rcases h1 : clusterStep env (.writeFile (pathJoin tmpDir dataFileName) data) w with ⟨r1, w1⟩
  rw [h1] at q1
  simp only [h1] at hv
  obtain ⟨q1r, -, -, q1s, q1t⟩ := q1
  simp only at q1r q1s q1t
  subst q1r
  simp only [run_call_bind] at hv ⊢
  have h2 : clusterStep env (.mkdirAll (applyArtifact c name revision)) w1 = (none, w1) := rfl
  simp only [run_call_bind, h2] at hv ⊢
  have q3 := cs_archive env (applyArtifact c name revision) tmpDir w1
  rcases h3 : clusterStep env (.archive (applyArtifact c name revision) tmpDir) w1 with ⟨r3, w3⟩
  rw [h3] at q3
  simp only [h3] at hv
  obtain ⟨-, -, q3s⟩ := q3
  simp only at q3s
  cases r3 with
  | error e => simp at hv
  | ok ds =>
  obtain ⟨digest, size⟩ := ds
  simp only [run_call_bind] at hv ⊢
  have q4 := cs_patchEA env (applyEA c name) w3
  rcases h4 : clusterStep env (.patchEA (applyEA c name)) w3 with ⟨r4, w4⟩
  rw [h4] at q4
  simp only [h4] at hv
  obtain ⟨-, q4s, -⟩ := q4
  simp only at q4s
  cases r4 with
  | error e => simp at hv
  | ok gen =>
  simp only [run_call_bind] at hv ⊢
  rcases h5 : clusterStep env (.patchEAStatus (applyEAPatched c name
    (archived (applyArtifact c name revision) digest size) gen)) w4 with ⟨r5, w5⟩
  simp only [h5] at hv
  cases r5 with
  | some e => simp at hv
  | none =>
  have q5 := cs_patchEAStatus env (applyEAPatched c name
    (archived (applyArtifact c name revision) digest size) gen) w4 (by rw [h5])
  rw [h5] at q5
  obtain ⟨-, q5s, ea5, q5e, q5st⟩ := q5
  simp only at q5s q5e
  simp only [run_call_bind] at hv ⊢
  have q6 := cs_patchKust env (applyKust c name) w5
  rcases h6 : clusterStep env (.patchKust (applyKust c name)) w5 with ⟨r6, w6⟩
  rw [h6] at q6
  simp only [h6] at hv
  obtain ⟨q6e, q6s⟩ := q6
  simp only at q6e q6s
  cases r6 with
  | some e => simp at hv
  | none =>
  simp only [run_call_bind] at hv ⊢
  rw [run_bind] at hv ⊢
  obtain ⟨i1, i2, -, -, i5⟩ := waitForCurrentStatus_cluster env (applyKust c name) revision w6
  cases hw : (run (clusterStep env) (waitForCurrentStatus (applyKust c name) revision) w6).val with
  | some e => simp [hw] at hv
  | none =>
  obtain ⟨k, hk⟩ := i5 hw
  generalize (run (clusterStep env) (waitForCurrentStatus (applyKust c name) revision) w6).world
    = w7 at *
  simp only [hw, run_call_bind] at hv ⊢
  have q8 := cs_garbageCollect env (archived (applyArtifact c name revision) digest size) 5 w7
  rcases h8 : clusterStep env (.garbageCollect
    (archived (applyArtifact c name revision) digest size) 5) w7 with ⟨r8, w8⟩
  rw [h8] at q8
  simp only [h8] at hv
  obtain ⟨q8k, q8e, q8s⟩ := q8
  simp only at q8k q8e q8s
  cases r8 with
  | some e => simp at hv
  | none =>
  simp only [run_pure]
  have hstore : w7.store = ((applyArtifact c name revision).path,
      (w1.tmp.filter (fun e => inDir tmpDir e.1)).map (fun e => (relTo tmpDir e.1, e.2))) ::
        w1.store.filter (fun e => e.1 ≠ (applyArtifact c name revision).path) := by
    rw [i2, q6s, q5s, q4s, q3s]
  refine ⟨⟨ea5, digest, size, ?_, ?_⟩,
    ⟨(w1.tmp.filter (fun e => inDir tmpDir e.1)).map (fun e => (relTo tmpDir e.1, e.2)), ?_, ?_⟩,
    ?_, ⟨k, ?_⟩⟩
  · rw [q8e, i1, q6e]
    exact q5e
  · rw [q5st]; rfl
  · rw [q8s, findArchive_filter_keep _
      (fun p => p = (archived (applyArtifact c name revision) digest size).path ||
        !inDirOf (archived (applyArtifact c name revision) digest size).path p) _
      (by simp [archived]), hstore, findArchive_cons_filter]
    simp
  · rw [q1t]
    simp only [List.filter_cons, inDir_pathJoin _ _ htmp, ↓reduceIte, List.map_cons,
      relTo_pathJoin _ _ htmp]
    exact findFile_head _ _ _
  · intro p hp hin
    rw [q8s]
    apply findArchive_filter_drop _
      (fun p => p = (archived (applyArtifact c name revision) digest size).path ||
        !inDirOf (archived (applyArtifact c name revision) digest size).path p)
    simp only [archived, hin, Bool.not_true, Bool.or_false, decide_eq_false_iff_not]
    exact hp
  · rw [q8k]
    exact hk

theorem cs_mkdirTemp (env : Env) (w : World) :
    clusterStep env .mkdirTemp w =
      (.ok ("/tmp/" ++ toString w.nextTmp), { w with nextTmp := w.nextTmp + 1 }) := rfl

theorem cs_osRemoveAll (env : Env) (dir : String) (w : World) :
    (clusterStep env (.osRemoveAll dir) w).2.kusts = w.kusts ∧
    (clusterStep env (.osRemoveAll dir) w).2.eas = w.eas ∧
    (clusterStep env (.osRemoveAll dir) w).2.store = w.store :=
  ⟨rfl, rfl, rfl⟩

theorem Apply_cluster_success (env : Env) (c : FluxController) (name revision : String)
    (data : Bytes) (w : World) (hd : data ≠ []) (hn : name ≠ "") (hr : revision ≠ "")
    (hv : (run (cluster env) (Apply c name revision data) w).val = none) :
    (∃ ea digest size, findEA (run (cluster env)
        (Apply c name revision data) w).world.eas c.ns name = some ea ∧
      ea.status.artifact = some (archived (applyArtifact c name revision) digest size)) ∧
    (∃ files, findArchive (run (cluster env)
        (Apply c name revision data) w).world.store
        (applyArtifact c name revision).path = some files ∧
      findFile files dataFileName = some data) ∧
    (∀ p, p ≠ (applyArtifact c name revision).path →
      inDirOf (applyArtifact c name revision).path p = true →
      findArchive (run (cluster env)
        (Apply c name revision data) w).world.store p = none) ∧
    (∃ k, findKust (run (cluster env)
        (Apply c name revision data) w).world.kusts c.ns name = some k) := by
  have hok : ∀ ev ∈ (run (cluster env) (Apply c name revision data) w).trace, ev.err = none := by
    intro ev hev
    obtain ⟨_, _, a3, _⟩ := Apply_run (cluster env) w c name revision data hd hn hr
    cases hee : ev.err with
    | none => rfl
    | some e =>
      have := a3 ev hev e hee
      rw [hv] at this
      cases this
  rw [run_cluster_of_ok env _ w hok] at hv ⊢
  have hlen : data.length ≠ 0 := by simpa using hd
  simp only [Apply, hlen, hn, hr, ↓reduceIte, run_call_bind, cs_mkdirTemp, run_bind, run_pure,
    run_call, (cs_osRemoveAll env _ _).1, (cs_osRemoveAll env _ _).2.1,
    (cs_osRemoveAll env _ _).2.2] at hv ⊢
  exact applyBody_cluster env c name revision data _ _ (pathJoin_tmp _) hv

/-! ## Apply, then Diff -/

/-- C6 as stated fails. On the empty cluster the first `Apply` of the test
succeeds at its first poll, the Kustomization it just created having no status
yet, and the `Diff` that follows reports drift: the artifact's revision is not
the Kustomization's `lastAppliedRevision`. -/
theorem Apply_then_Diff_reports_drift :
    (run (cluster {}) (Apply testController "foo" "dev-1" helloWorld) {}).val = none ∧
    (run (cluster {}) (Diff testController "foo" helloWorld)
      (run (cluster {}) (Apply testController "foo" "dev-1" helloWorld) {}).world).val =
      (true, "External Artifact revision does not match Kustomization last applied revision",
        none) := by
  decide

/-- C6, amended. In the cluster without faults, for non-empty name, revision
and content: if `Apply` returns success and the Kustomization's
`lastAppliedRevision` then is the applied revision, the `Diff` that follows
with the same content answers no drift. -/
theorem Apply_then_Diff_no_drift (env : Env) (hf : ∀ w o, env.fault w o = none)
    (c : FluxController) (name revision : String) (data : Bytes) (w : World)
    (hd : data ≠ []) (hn : name ≠ "") (hr : revision ≠ "")
    (hv : (run (cluster env) (Apply c name revision data) w).val = none)
    (hrev : ∀ k, findKust (run (cluster env) (Apply c name revision data) w).world.kusts
      c.ns name = some k → k.status.lastAppliedRevision = revision) :
    (run (cluster env) (Diff c name data)
      (run (cluster env) (Apply c name revision data) w).world).val =
      (false, "No drift detected", none) := by
  obtain ⟨⟨ea, digest, size, f1, f2⟩, ⟨files, f3, f4⟩, -, ⟨k, f5⟩⟩ :=
    Apply_cluster_success env c name revision data w hd hn hr hv
  have f6 := hrev k f5
  rw [Diff_cluster env hf]
  unfold diffTable
  have f7 : (archived (applyArtifact c name revision) digest size).path =
      (applyArtifact c name revision).path := rfl
  have f8 : (archived (applyArtifact c name revision) digest size).revision = revision := rfl
  simp [f1, f2, f3, f4, f5, f6, f7, f8]

/-- C6, amended, where the Kustomization `foo` was applied at `dev-1` before
and `dev-1` is applied again. -/
theorem Apply_then_Diff_no_drift_witness :
    (run (cluster {}) (Diff testController "foo" helloWorld)
      (run (cluster {}) (Apply testController "foo" "dev-1" helloWorld)
        { kusts := [appliedKust] }).world).val = (false, "No drift detected", none) :=
  Apply_then_Diff_no_drift {} (fun _ _ => rfl) testController "foo" "dev-1" helloWorld
    { kusts := [appliedKust] } (by decide) (by decide) (by decide) (by decide)
    (fun k hk => by
      have h0 : (findKust (run (cluster {}) (Apply testController "foo" "dev-1" helloWorld)
          { kusts := [appliedKust] }).world.kusts testController.ns "foo").map
          (fun x => x.status.lastAppliedRevision) = some "dev-1" := by decide
      rw [hk] at h0
      simpa using h0)

/-! ## Delete -/

theorem findKust_filter_none (kusts : List Kustomization) (ns name : String) :
    findKust (kusts.filter (fun x => ¬ (x.ns = ns ∧ x.name = name))) ns name = none := by
  unfold findKust
  rw [List.find?_filter]
  simp only [List.find?_eq_none]
  intro x _
  by_cases h : x.ns = ns ∧ x.name = name <;> simp [h]

theorem findEA_filter_none (eas : List ExternalArtifact) (ns name : String) :
    findEA (eas.filter (fun x => ¬ (x.ns = ns ∧ x.name = name))) ns name = none := by
  unfold findEA
  rw [List.find?_filter]
  simp only [List.find?_eq_none]
  intro x _
  by_cases h : x.ns = ns ∧ x.name = name <;> simp [h]

theorem findKust_filter_none_bool (kusts : List Kustomization) (ns name : String) :
    findKust (kusts.filter (fun x => !decide (x.ns = ns) || !decide (x.name = name))) ns name =
      none := by
  have := findKust_filter_none kusts ns name
  simpa using this

theorem findEA_filter_none_bool (eas : List ExternalArtifact) (ns name : String) :
    findEA (eas.filter (fun x => !decide (x.ns = ns) || !decide (x.name = name))) ns name =
      none := by
  have := findEA_filter_none eas ns name
  simpa using this

theorem Delete_absent (env : Env) (hf : ∀ w o, env.fault w o = none) (c : FluxController)
    (name : String) (fuel : Nat) (w : World)
    (hk : findKust w.kusts c.ns name = none) (he : findEA w.eas c.ns name = none) :
    run (cluster env) (Delete c name (fuel + 1)) w =
      ⟨some none, w,
        [⟨.deleteKust c.ns name, some (Err.notFound name)⟩,
         ⟨.getKust c.ns name, some (Err.notFound name)⟩,
         ⟨.getEA c.ns name, some (Err.notFound name)⟩,
         ⟨.deleteEA c.ns name, some (Err.notFound name)⟩]⟩ := by
  unfold Delete
  simp [run_bind, pollUntilContextCancel_succ, deleteCondition, Delete.deleteEA,
    cluster_noFault env hf, clusterStep, hk, he, Err.isNotFound, Op.errOf]

theorem Delete_tears_down (env : Env) (hf : ∀ w o, env.fault w o = none) (c : FluxController)
    (name : String) (fuel : Nat) (w : World) :
    (run (cluster env) (Delete c name (fuel + 1)) w).val = some none ∧
    findKust (run (cluster env) (Delete c name (fuel + 1)) w).world.kusts c.ns name = none ∧
    findEA (run (cluster env) (Delete c name (fuel + 1)) w).world.eas c.ns name = none := by
  unfold Delete
  cases hk : findKust w.kusts c.ns name with
  | none =>
    cases he : findEA w.eas c.ns name with
    | none =>
      simp [run_bind, pollUntilContextCancel_succ, deleteCondition, Delete.deleteEA,
        cluster_noFault env hf, clusterStep, hk, he, Err.isNotFound, Op.errOf]
    | some ea =>
      obtain ⟨k1, k2⟩ := findEA_key _ _ _ _ he
      cases ha : ea.status.artifact <;>
      simp [run_bind, pollUntilContextCancel_succ, deleteCondition, Delete.deleteEA,
        cluster_noFault env hf, clusterStep, hk, he, Err.isNotFound, Op.errOf, k1, k2, ha,
        findEA_filter_none_bool]
  | some k =>
    cases he : findEA w.eas c.ns name with
    | none =>
      simp [run_bind, pollUntilContextCancel_succ, deleteCondition, Delete.deleteEA,
        cluster_noFault env hf, clusterStep, hk, he, Err.isNotFound, Op.errOf,
        findKust_filter_none_bool]
    | some ea =>
      obtain ⟨k1, k2⟩ := findEA_key _ _ _ _ he
      cases ha : ea.status.artifact <;>
      simp [run_bind, pollUntilContextCancel_succ, deleteCondition, Delete.deleteEA,
        cluster_noFault env hf, clusterStep, hk, he, Err.isNotFound, Op.errOf, k1, k2, ha,
        findEA_filter_none_bool, findKust_filter_none_bool]

/-- C7. In the cluster without faults, `Delete` of a name that has neither a
Kustomization nor an ExternalArtifact returns success and changes nothing: the
delete of the Kustomization, the first fetch of the poll, the fetch and the
delete of the ExternalArtifact each answer not-found and are passed over, and
no artifact removal is issued. A `Delete` leaves the name in that state, so a
second `Delete` after it is this no-op success. -/
theorem Delete_absent_is_noop (env : Env) (hf : ∀ w o, env.fault w o = none)
    (c : FluxController) (name : String) (fuel : Nat) :
    (∀ w, findKust w.kusts c.ns name = none → findEA w.eas c.ns name = none →
      run (cluster env) (Delete c name (fuel + 1)) w =
        ⟨some none, w,
          [⟨.deleteKust c.ns name, some (Err.notFound name)⟩,
           ⟨.getKust c.ns name, some (Err.notFound name)⟩,
           ⟨.getEA c.ns name, some (Err.notFound name)⟩,
           ⟨.deleteEA c.ns name, some (Err.notFound name)⟩]⟩) ∧
    (∀ w, (run (cluster env) (Delete c name (fuel + 1))
        (run (cluster env) (Delete c name (fuel + 1)) w).world).val = some none ∧
      (run (cluster env) (Delete c name (fuel + 1))
        (run (cluster env) (Delete c name (fuel + 1)) w).world).world =
        (run (cluster env) (Delete c name (fuel + 1)) w).world) := by
  refine ⟨fun w hk he => Delete_absent env hf c name fuel w hk he, fun w => ?_⟩
  obtain ⟨_, t2, t3⟩ := Delete_tears_down env hf c name fuel w
  rw [Delete_absent env hf c name fuel _ t2 t3]
  exact ⟨rfl, rfl⟩

/-- C7, on the empty cluster with the name of the test. -/
theorem Delete_absent_is_noop_witness :
    run (cluster {}) (Delete testController "foo" 1) {} =
      ⟨some none, {},
        [⟨.deleteKust "confighub" "foo", some (Err.notFound "foo")⟩,
         ⟨.getKust "confighub" "foo", some (Err.notFound "foo")⟩,
         ⟨.getEA "confighub" "foo", some (Err.notFound "foo")⟩,
         ⟨.deleteEA "confighub" "foo", some (Err.notFound "foo")⟩]⟩ :=
  (Delete_absent_is_noop {} (fun _ _ => rfl) testController "foo" 0).1 {} rfl rfl

/-- C8, the code at a failing input. The Kustomization and ExternalArtifact of
the first `Apply` exist; the fetch inside the deletion poll fails with a server
error (not a not-found); `Delete` goes on, deletes the ExternalArtifact,
removes the artifact, and returns success instead of that error. -/
theorem Delete_drops_poll_error :
    (run (cluster fetchOutage) (Delete testController "foo" 5) afterFirstApply).val =
      some none ∧
    (run (cluster fetchOutage) (Delete testController "foo" 5) afterFirstApply).trace.take 2 =
      [⟨.deleteKust "confighub" "foo", none⟩,
       ⟨.getKust "confighub" "foo", some (Err.other "etcdserver: request timed out")⟩] ∧
    (run (cluster fetchOutage) (Delete testController "foo" 5) afterFirstApply).trace.map
        (fun ev => ev.err) =
      [none, some (Err.other "etcdserver: request timed out"), none, none, none] ∧
    afterFirstApply.eas ≠ [] ∧ afterFirstApply.store ≠ [] ∧
    (run (cluster fetchOutage) (Delete testController "foo" 5) afterFirstApply).world.eas =
      [] ∧
    (run (cluster fetchOutage) (Delete testController "foo" 5) afterFirstApply).world.store =
      [] := by
  decide

/-! ## Not-found answers -/

theorem Diff_error_source {W : Type} (h : Handler W) (w : W) (c : FluxController)
    (name : String) (data : Bytes) (e : Err)
    (he : (run h (Diff c name data) w).val.2.2 = some e) :
    ∃ ev ∈ (run h (Diff c name data) w).trace,
      ev.err = some e ∧ (ev.op.isBackend = true → e.isNotFound = false) := by
  unfold Diff at he ⊢
  simp only [run_call_bind] at he ⊢
  rcases h1 : h (.getKust c.ns name) w with ⟨r1, w1⟩
  simp only [h1] at he
  cases r1 with
  | error e1 =>
    by_cases hn : e1.isNotFound = true
    · simp [hn] at he
    · simp only [hn] at he ⊢
      simp only [Bool.false_eq_true, ↓reduceIte, run_pure, Option.some.injEq] at he ⊢
      subst he
      exact ⟨_, List.mem_cons_self _ _, rfl, fun _ => by simpa using hn⟩
  | ok kust =>
  simp only [run_call_bind] at he ⊢
  rcases h2 : h (.getEA c.ns name) w1 with ⟨r2, w2⟩
  simp only [h2] at he
  cases r2 with
  | error e1 =>
    by_cases hn : e1.isNotFound = true
    · simp [hn] at he
    · simp only [hn] at he ⊢
      simp only [Bool.false_eq_true, ↓reduceIte, run_pure, Option.some.injEq] at he ⊢
      subst he
      exact ⟨_, List.mem_cons_of_mem _ (List.mem_cons_self _ _), rfl,
        fun _ => by simpa using hn⟩
  | ok ea =>
  simp only at he ⊢
  cases ha : ea.status.artifact with
  | none => simp [ha] at he
  | some a =>
  simp only [ha, run_call_bind] at he ⊢
  rcases h3 : h (.artifactExist a) w2 with ⟨r3, w3⟩
  simp only [h3] at he
  cases r3 with
  | false => simp at he
  | true =>
  by_cases hr : a.revision = kust.status.lastAppliedRevision
  · simp only [hr, Bool.not_true, Bool.false_eq_true, ↓reduceIte, ne_eq, not_true_eq_false,
      run_call_bind] at he ⊢
    rcases h4 : h .mkdirTemp w3 with ⟨r4, w4⟩
    simp only [h4] at he
    cases r4 with
    | error e1 =>
      simp only [run_pure, Option.some.injEq] at he ⊢
      subst he
      exact ⟨⟨.mkdirTemp, some e1⟩, by simp [Op.errOf], rfl, fun hb => by simp [Op.isBackend] at hb⟩
    | ok tmpDir =>
    simp only [run_bind, run_call_bind, run_call, run_pure] at he ⊢
    rcases h5 : h (.copyToPath a dataFileName (pathJoin tmpDir dataFileName)) w4 with ⟨r5, w5⟩
    simp only [h5] at he
    cases r5 with
    | some e1 =>
      simp only [run_pure, Option.some.injEq] at he ⊢
      subst he
      exact ⟨⟨.copyToPath a dataFileName (pathJoin tmpDir dataFileName), some e1⟩,
        by simp [Op.errOf], rfl, fun hb => by simp [Op.isBackend] at hb⟩
    | none =>
    simp only [run_call_bind] at he ⊢
    rcases h6 : h (.readFile (pathJoin tmpDir dataFileName)) w5 with ⟨r6, w6⟩
    simp only [h6] at he
    cases r6 with
    | error e1 =>
      simp only [run_pure, Option.some.injEq] at he ⊢
      subst he
      exact ⟨⟨.readFile (pathJoin tmpDir dataFileName), some e1⟩,
        by simp [Op.errOf], rfl, fun hb => by simp [Op.isBackend] at hb⟩
    | ok cur =>
      by_cases hc : cur = data <;> simp [hc] at he
  · simp [hr] at he

theorem deleteEA_error_source {W : Type} (h : Handler W) (w : W) (ea : ExternalArtifact)
    (e : Err) (he : (run h (Delete.deleteEA ea) w).val = some (some e)) :
    ∃ ev ∈ (run h (Delete.deleteEA ea) w).trace,
      ev.err = some e ∧ (ev.op.isBackend = true → e.isNotFound = false) := by
  unfold Delete.deleteEA at he ⊢
  simp only [run_call_bind] at he ⊢
  rcases h1 : h (.deleteEA ea.ns ea.name) w with ⟨r1, w1⟩
  simp only [h1] at he
  cases r1 with
  | none =>
    simp only [Option.isSome_none, Bool.false_and, Bool.false_eq_true, ↓reduceIte] at he ⊢
    cases ha : ea.status.artifact with
    | none => simp [ha] at he
    | some a =>
      simp only [ha, run_call_bind] at he ⊢
      rcases h2 : h (.removeAll a) w1 with ⟨r2, w2⟩
      simp only [h2] at he
      cases r2 with
      | none => simp at he
      | some e1 =>
        simp only [run_pure, Option.some.injEq] at he ⊢
        subst he
        exact ⟨⟨.removeAll a, some e1⟩, by simp [Op.errOf], rfl,
          fun hb => by simp [Op.isBackend] at hb⟩
  | some e1 =>
    by_cases hn : e1.isNotFound = true
    · simp only [Option.isSome_some, Option.any_some, hn, Bool.not_true, Bool.and_false,
        Bool.false_eq_true, ↓reduceIte] at he ⊢
      cases ha : ea.status.artifact with
      | none => simp [ha] at he
      | some a =>
        simp only [ha, run_call_bind] at he ⊢
        rcases h2 : h (.removeAll a) w1 with ⟨r2, w2⟩
        simp only [h2] at he
        cases r2 with
        | none => simp at he
        | some e2 =>
          simp only [run_pure, Option.some.injEq] at he ⊢
          subst he
          exact ⟨⟨.removeAll a, some e2⟩, by simp [Op.errOf], rfl,
            fun hb => by simp [Op.isBackend] at hb⟩
    · simp only [Option.isSome_some, Option.any_some, hn, Bool.not_false, Bool.and_self,
        ↓reduceIte, run_pure, Option.some.injEq] at he ⊢
      subst he
      exact ⟨_, List.mem_cons_self _ _, rfl, fun _ => by simpa using hn⟩

theorem Delete_error_source {W : Type} (h : Handler W) (w : W) (c : FluxController)
    (name : String) (fuel : Nat) (e : Err)
    (he : (run h (Delete c name fuel) w).val = some (some e)) :
    ∃ ev ∈ (run h (Delete c name fuel) w).trace,
      ev.err = some e ∧ (ev.op.isBackend = true → e.isNotFound = false) := by
  unfold Delete at he ⊢
  simp only [run_call_bind] at he ⊢
  rcases h1 : h (.deleteKust c.ns name) w with ⟨r1, w1⟩
  simp only [h1] at he
  by_cases hc : (r1.isSome && !(r1.any Err.isNotFound)) = true
  · simp only [hc, ↓reduceIte, run_pure, Option.some.injEq] at he ⊢
    subst he
    simp only [Option.isSome_some, Option.any_some, Bool.true_and, Bool.not_eq_true',
      ] at hc
    exact ⟨_, List.mem_cons_self _ _, rfl, fun _ => hc⟩
  · simp only [hc] at he ⊢
    simp only [Bool.false_eq_true, ↓reduceIte] at he ⊢
    rw [run_bind] at he ⊢
    cases hp : (run h (pollUntilContextCancel (deleteCondition c name) fuel) w1).val with
    | none => simp [hp] at he
    | some res =>
      simp only [hp, run_call_bind] at he ⊢
      generalize (run h (pollUntilContextCancel (deleteCondition c name) fuel) w1).world = w2
        at *
      generalize (run h (pollUntilContextCancel (deleteCondition c name) fuel) w1).trace = T
        at *
      rcases h2 : h (.getEA c.ns name) w2 with ⟨r2, w3⟩
      simp only [h2] at he
      cases r2 with
      | error e1 =>
        by_cases hn : e1.isNotFound = true
        · simp only [hn, Bool.not_true, Bool.false_eq_true, ↓reduceIte] at he ⊢
          obtain ⟨ev, hev, g1, g2⟩ := deleteEA_error_source h w3 _ e he
          exact ⟨ev, by simp [hev], g1, g2⟩
        · simp only [hn, Bool.not_false, ↓reduceIte, run_pure, Option.some.injEq] at he ⊢
          subst he
          exact ⟨⟨.getEA c.ns name, some e1⟩, by simp [Op.errOf], rfl,
            fun _ => by simpa using hn⟩
      | ok ea =>
        simp only at he ⊢
        obtain ⟨ev, hev, g1, g2⟩ := deleteEA_error_source h w3 _ e he
        exact ⟨ev, by simp [hev], g1, g2⟩

/-- C9, amended. Whatever the backend answers, an error that `Diff` or
`Delete` returns is the answer of one of its operations, and when that
operation is one on the API server the error is not a not-found: their
fetches and deletes pass a not-found over. `Apply` has no such treatment: for
valid inputs every error one of its operations answers, a not-found of the
fetch in the convergence wait included, is what `Apply` returns. -/
theorem notFound_soft_only_in_Diff_and_Delete {W : Type} (h : Handler W) (w : W)
    (c : FluxController) (name : String) :
    (∀ data e, (run h (Diff c name data) w).val.2.2 = some e →
      ∃ ev ∈ (run h (Diff c name data) w).trace,
        ev.err = some e ∧ (ev.op.isBackend = true → e.isNotFound = false)) ∧
    (∀ fuel e, (run h (Delete c name fuel) w).val = some (some e) →
      ∃ ev ∈ (run h (Delete c name fuel) w).trace,
        ev.err = some e ∧ (ev.op.isBackend = true → e.isNotFound = false)) ∧
    (∀ revision data, data ≠ [] → name ≠ "" → revision ≠ "" →
      ∀ ev ∈ (run h (Apply c name revision data) w).trace, ∀ e, ev.err = some e →
        (run h (Apply c name revision data) w).val = some e) :=
  ⟨fun data e he => Diff_error_source h w c name data e he,
    fun fuel e he => Delete_error_source h w c name fuel e he,
    fun revision data hd hn hr => (Apply_run h w c name revision data hd hn hr).2.2.1⟩

/-- C9 as stated fails: when the fetch of the convergence wait answers
not-found, `Apply` returns that not-found error. -/
theorem Apply_surfaces_notFound :
    (run (cluster fetchNotFound) (Apply testController "foo" "dev-1" helloWorld) {}).val =
      some (Err.notFound "foo") ∧
    (Err.notFound "foo").isNotFound = true := by
  decide

/-! ## Garbage collection of the previous artifact -/

theorem dropWhile_to_slash (l rest : List Char) (hl : '/' ∉ l) :
    (l ++ '/' :: rest).dropWhile (fun ch => ch ≠ '/') = '/' :: rest := by
  induction l with
  | nil => simp [List.dropWhile]
  | cons x xs ih =>
    have hx : x ≠ '/' := fun h' => hl (by simp [h'])
    have hxs : '/' ∉ xs := fun h' => hl (List.mem_cons_of_mem _ h')
    have := ih hxs
    simpa [List.dropWhile, hx] using this

theorem dirPrefix_file (dir file : String) (hf : '/' ∉ file.data) :
    dirPrefix (dir ++ "/" ++ file) = dir.data ++ ['/'] := by
  unfold dirPrefix
  have hd : (dir ++ "/" ++ file).data = dir.data ++ '/' :: file.data := by
    simp [String.data_append]
  rw [hd]
  have hrev : '/' ∉ file.data.reverse := by simpa using hf
  rw [show (dir.data ++ '/' :: file.data).reverse = file.data.reverse ++ '/' :: dir.data.reverse
    by simp]
  rw [dropWhile_to_slash _ _ hrev]
  simp

theorem inDirOf_sibling (dir file other : String) (hf : '/' ∉ file.data) :
    inDirOf (dir ++ "/" ++ file) (dir ++ "/" ++ other) = true := by
  unfold inDirOf
  rw [dirPrefix_file dir file hf, List.isPrefixOf_iff_prefix]
  exact ⟨other.data, by simp [String.data_append]⟩

theorem noSlash_file (revision : String) (h : '/' ∉ revision.data) :
    '/' ∉ (revision ++ ".tar.gz").data := by
  rw [String.data_append]
  intro hm
  rcases List.mem_append.1 hm with h1 | h1
  · exact h h1
  · revert h1
    decide

theorem plainElem_file (revision : String) (h : '/' ∉ revision.data) :
    plainElem (revision ++ ".tar.gz") := by
  have hlen : 7 ≤ (revision ++ ".tar.gz").data.length := by
    rw [String.data_append, List.length_append]
    exact Nat.le_add_left _ _
  refine ⟨?_, noSlash_file revision h, ?_, ?_⟩
  · intro h0
    rw [h0] at hlen
    exact absurd hlen (by decide)
  · intro h0
    rw [h0] at hlen
    exact absurd hlen (by decide)
  · intro h0
    rw [h0] at hlen
    exact absurd hlen (by decide)

/-- The path `Apply` gives the artifact of a revision: the library's
`path.Join` of the owner `confighub`, the controller's namespace, the name and
the archive's file name. -/
theorem applyArtifact_path (c : FluxController) (name revision : String) :
    (applyArtifact c name revision).path =
      pathJoinList ["confighub", c.ns, name, revision ++ ".tar.gz"] := by
  show pathJoinList [String.mk ("confighub".data.map Char.toLower), _, _, _] = _
  rw [show String.mk ("confighub".data.map Char.toLower) = "confighub" by decide]

/-- With a namespace and a name that are plain path elements and a revision
without a slash, the path is these four elements with slashes between them. -/
theorem applyArtifact_path_plain (c : FluxController) (name revision : String)
    (hns : plainElem c.ns) (hnm : plainElem name) (hr : '/' ∉ revision.data) :
    (applyArtifact c name revision).path =
      "confighub" ++ "/" ++ c.ns ++ "/" ++ name ++ "/" ++ (revision ++ ".tar.gz") := by
  rw [applyArtifact_path, pathJoinList_plain _ (by simp)]
  · apply String.ext
    simp [joinSlash, String.data_append]
  · intro e he
    simp only [List.mem_cons, List.mem_singleton, List.not_mem_nil, or_false] at he
    rcases he with h | h | h | h
    · rw [h]; decide
    · rw [h]; exact hns
    · rw [h]; exact hnm
    · rw [h]; exact plainElem_file revision hr

theorem applyArtifact_path_inj (c : FluxController) (name r1 r2 : String)
    (hns : plainElem c.ns) (hnm : plainElem name)
    (h1 : '/' ∉ r1.data) (h2 : '/' ∉ r2.data)
    (h : (applyArtifact c name r1).path = (applyArtifact c name r2).path) : r1 = r2 := by
  rw [applyArtifact_path_plain c name r1 hns hnm h1,
    applyArtifact_path_plain c name r2 hns hnm h2] at h
  have hd := congrArg String.data h
  simp only [String.data_append, List.append_cancel_left_eq,
    List.append_cancel_right_eq] at hd
  exact String.ext hd

/-- C10: the code at the failing input. Revision `b` is applied, then revision
`a/c`: the second artifact lies in the subdirectory `a` of the name's
directory, garbage collection sweeps only the directory of the artifact it
keeps, and the archive written for `b` is still in the store after the second
`Apply` succeeded. -/
theorem second_Apply_keeps_first_archive :
    (run (cluster {}) (Apply testController "foo" "b" helloWorld) {}).val = none ∧
    (run (cluster {}) (Apply testController "foo" "a/c" helloWorldUpdated)
      (run (cluster {}) (Apply testController "foo" "b" helloWorld) {}).world).val = none ∧
    (findArchive
      (run (cluster {}) (Apply testController "foo" "a/c" helloWorldUpdated)
        (run (cluster {}) (Apply testController "foo" "b" helloWorld) {}).world).world.store
      (applyArtifact testController "foo" "b").path).isSome = true := by
  decide

/-- The same slip reaches the artifacts of other names: after `bar` was
applied at revision `y`, applying `foo` at revision `../bar/z` puts the kept
artifact in the directory of `bar`, and garbage collection removes the archive
of `bar` while the ExternalArtifact of `bar` still refers to it. -/
theorem Apply_sweeps_other_name :
    (run (cluster {}) (Apply testController "bar" "y" helloWorld) {}).val = none ∧
    (run (cluster {}) (Apply testController "foo" "../bar/z" helloWorldUpdated)
      (run (cluster {}) (Apply testController "bar" "y" helloWorld) {}).world).val = none ∧
    (applyArtifact testController "foo" "../bar/z").path = "confighub/confighub/bar/z.tar.gz" ∧
    findArchive
      (run (cluster {}) (Apply testController "foo" "../bar/z" helloWorldUpdated)
        (run (cluster {}) (Apply testController "bar" "y" helloWorld) {}).world).world.store
      (applyArtifact testController "bar" "y").path = none ∧
    ((findEA
      (run (cluster {}) (Apply testController "foo" "../bar/z" helloWorldUpdated)
        (run (cluster {}) (Apply testController "bar" "y" helloWorld) {}).world).world.eas
      "confighub" "bar").bind (fun ea => ea.status.artifact)).map (fun a => a.path) =
      some (applyArtifact testController "bar" "y").path := by
  decide

/-- Where the slip does not reach: in the cluster, for a namespace and a name
that are plain path elements and two distinct revisions that contain no
slash, if `Apply` of the first succeeds and then `Apply` of the second
succeeds, the archive written for the first is no longer in the store, the
archive for the second is, and the ExternalArtifact's `status.artifact` is the
artifact of the second revision. -/
theorem second_Apply_collects_first (env : Env) (c : FluxController) (name r1 r2 : String)
    (c1 c2 : Bytes) (w : World)
    (hns : plainElem c.ns) (hnm : plainElem name)
    (hn : name ≠ "") (h1 : r1 ≠ "") (h2 : r2 ≠ "") (hne : r1 ≠ r2)
    (hc1 : c1 ≠ []) (hc2 : c2 ≠ [])
    (hs1 : '/' ∉ r1.data) (hs2 : '/' ∉ r2.data)
    (hv1 : (run (cluster env) (Apply c name r1 c1) w).val = none)
    (hv2 : (run (cluster env) (Apply c name r2 c2)
      (run (cluster env) (Apply c name r1 c1) w).world).val = none) :
    findArchive (run (cluster env) (Apply c name r2 c2)
      (run (cluster env) (Apply c name r1 c1) w).world).world.store
      (applyArtifact c name r1).path = none ∧
    (∃ files, findArchive (run (cluster env) (Apply c name r2 c2)
      (run (cluster env) (Apply c name r1 c1) w).world).world.store
      (applyArtifact c name r2).path = some files ∧ findFile files dataFileName = some c2) ∧
    (∃ ea artifact, findEA (run (cluster env) (Apply c name r2 c2)
      (run (cluster env) (Apply c name r1 c1) w).world).world.eas c.ns name = some ea ∧
      ea.status.artifact = some artifact ∧ artifact.revision = r2 ∧
      artifact.path = (applyArtifact c name r2).path) := by
  have _ := hv1
  have _ := h1
  have _ := hc1
  obtain ⟨⟨ea, digest, size, f1, f2⟩, f3, f4, -⟩ :=
    Apply_cluster_success env c name r2 c2 _ hc2 hn h2 hv2
  refine ⟨?_, f3, ⟨ea, _, f1, f2, rfl, rfl⟩⟩
  apply f4
  · intro hp
    exact hne (applyArtifact_path_inj c name r1 r2 hns hnm hs1 hs2 hp)
  · rw [applyArtifact_path_plain c name r1 hns hnm hs1,
      applyArtifact_path_plain c name r2 hns hnm hs2]
    exact inDirOf_sibling _ _ _ (noSlash_file r2 hs2)

/-- The two `Apply` calls of the test on the empty cluster: the archive of
`dev-1` is gone after `dev-2` was applied. -/
theorem second_Apply_collects_first_witness :
    findArchive (run (cluster {}) (Apply testController "foo" "dev-2" helloWorldUpdated)
      (run (cluster {}) (Apply testController "foo" "dev-1" helloWorld) {}).world).world.store
      (applyArtifact testController "foo" "dev-1").path = none :=
  (second_Apply_collects_first {} testController "foo" "dev-1" "dev-2" helloWorld
    helloWorldUpdated {} (by decide) (by decide) (by decide) (by decide) (by decide)
    (by decide) (by decide) (by decide) (by decide) (by decide) (by decide) (by decide)).1

/-! ## Names of payloads -/

theorem payloadToName_data (p : BridgeWorkerPayload) :
    (payloadToName p).data = p.SpaceSlug.data ++ '-' :: p.UnitSlug.data := by
  simp [payloadToName, stringsJoin2, String.data_append]

theorem split_at_hyphen (a b c d : List Char) (ha : '-' ∉ a) (hc : '-' ∉ c)
    (h : a ++ '-' :: b = c ++ '-' :: d) : a = c ∧ b = d := by
  induction a generalizing c with
  | nil =>
    cases c with
    | nil => simpa using h
    | cons y ys =>
      simp only [List.nil_append, List.cons_append, List.cons.injEq] at h
      exact absurd (by simp [← h.1]) hc
  | cons x xs ih =>
    cases c with
    | nil =>
      simp only [List.nil_append, List.cons_append, List.cons.injEq] at h
      exact absurd (by simp [h.1]) ha
    | cons y ys =>
      simp only [List.cons_append, List.cons.injEq] at h
      have hxs : '-' ∉ xs := fun h' => ha (List.mem_cons_of_mem _ h')
      have hys : '-' ∉ ys := fun h' => hc (List.mem_cons_of_mem _ h')
      obtain ⟨e1, e2⟩ := ih ys hxs hys h.2
      exact ⟨by rw [h.1, e1], e2⟩

/-- C12 as stated fails: the slugs `a-b`, `c` and the slugs `a`, `b-c` differ
and give the same name `a-b-c`, hence the same Kustomization, ExternalArtifact
and artifact. -/
theorem payloadToName_collision :
    ((("a-b", "c") : String × String) ≠ ("a", "b-c")) ∧
    payloadToName { SpaceSlug := "a-b", UnitSlug := "c" } =
      payloadToName { SpaceSlug := "a", UnitSlug := "b-c" } ∧
    applyKust testController (payloadToName { SpaceSlug := "a-b", UnitSlug := "c" }) =
      applyKust testController (payloadToName { SpaceSlug := "a", UnitSlug := "b-c" }) ∧
    applyEA testController (payloadToName { SpaceSlug := "a-b", UnitSlug := "c" }) =
      applyEA testController (payloadToName { SpaceSlug := "a", UnitSlug := "b-c" }) ∧
    applyArtifact testController (payloadToName { SpaceSlug := "a-b", UnitSlug := "c" }) "1" =
      applyArtifact testController (payloadToName { SpaceSlug := "a", UnitSlug := "b-c" })
        "1" := by
  decide

/-- C12, amended. `payloadToName` maps a payload to its space slug, a hyphen
and its unit slug. Two payloads with the same name have the same pair of slugs
when their space slugs are equal, and when neither space slug holds a hyphen:
there two different units never get the same name. -/
theorem payloadToName_injective_on (p q : BridgeWorkerPayload) :
    payloadToName p = p.SpaceSlug ++ "-" ++ p.UnitSlug ∧
    (p.SpaceSlug = q.SpaceSlug ∨ ('-' ∉ p.SpaceSlug.data ∧ '-' ∉ q.SpaceSlug.data) →
      payloadToName p = payloadToName q →
      p.SpaceSlug = q.SpaceSlug ∧ p.UnitSlug = q.UnitSlug) := by
  refine ⟨rfl, ?_⟩
  intro hcase heq
  have hd := congrArg String.data heq
  rw [payloadToName_data, payloadToName_data] at hd
  rcases hcase with hs | ⟨hp, hq⟩
  · rw [hs] at hd
    simp only [List.append_cancel_left_eq, List.cons.injEq, true_and] at hd
    exact ⟨hs, String.ext hd⟩
  · obtain ⟨e1, e2⟩ := split_at_hyphen _ _ _ _ hp hq hd
    exact ⟨String.ext e1, String.ext e2⟩

/-! ## The artifact Apply records -/

theorem cs_archive_answer (env : Env) (a : Artifact) (dir : String) (w : World) :
    (clusterStep env (.archive a dir) w).1 =
      .ok (env.digest ((w.tmp.filter (fun e => inDir dir e.1)).map
          (fun e => (relTo dir e.1, e.2))),
        env.size ((w.tmp.filter (fun e => inDir dir e.1)).map
          (fun e => (relTo dir e.1, e.2)))) := rfl

theorem applyBody_cluster_recorded (env : Env) (c : FluxController) (name revision : String)
    (data : Bytes) (tmpDir : String) (w : World)
    (hv : (run (clusterStep env) (applyBody c name revision data tmpDir) w).val = none) :
    ∃ ea files, findEA (run (clusterStep env)
        (applyBody c name revision data tmpDir) w).world.eas c.ns name = some ea ∧
      findArchive (run (clusterStep env)
        (applyBody c name revision data tmpDir) w).world.store
        (applyArtifact c name revision).path = some files ∧
      ea.status.artifact = some (archived (applyArtifact c name revision)
        (env.digest files) (env.size files)) := by
  unfold applyBody at hv ⊢
  simp only [run_call_bind] at hv ⊢
  have q1 := cs_writeFile env (pathJoin tmpDir dataFileName) data w
  rcases h1 : clusterStep env (.writeFile (pathJoin tmpDir dataFileName) data) w with ⟨r1, w1⟩
  rw [h1] at q1
  simp only [h1] at hv
  obtain ⟨q1r, -, -, q1s, q1t⟩ := q1
  simp only at q1r q1s q1t
  subst q1r
  simp only [run_call_bind] at hv ⊢
  have h2 : clusterStep env (.mkdirAll (applyArtifact c name revision)) w1 = (none, w1) := rfl
  simp only [run_call_bind, h2] at hv ⊢
  have q3 := cs_archive env (applyArtifact c name revision) tmpDir w1
  rcases h3 : clusterStep env (.archive (applyArtifact c name revision) tmpDir) w1 with ⟨r3, w3⟩
  rw [h3] at q3
  simp only [h3] at hv
  obtain ⟨-, -, q3s⟩ := q3
  simp only at q3s
  cases r3 with
  | error e => simp at hv
  | ok ds =>
  obtain ⟨digest, size⟩ := ds
  have a3 := cs_archive_answer env (applyArtifact c name revision) tmpDir w1
  rw [h3] at a3
  have a3p := Except.ok.inj a3
  have a3d : digest = _ := congrArg Prod.fst a3p
  have a3s : size = _ := congrArg Prod.snd a3p
  simp only [run_call_bind] at hv ⊢
  have q4 := cs_patchEA env (applyEA c name) w3
  rcases h4 : clusterStep env (.patchEA (applyEA c name)) w3 with ⟨r4, w4⟩
  rw [h4] at q4
  simp only [h4] at hv
  obtain ⟨-, q4s, -⟩ := q4
  simp only at q4s
  cases r4 with
  | error e => simp at hv
  | ok gen =>
  simp only [run_call_bind] at hv ⊢
  rcases h5 : clusterStep env (.patchEAStatus (applyEAPatched c name
    (archived (applyArtifact c name revision) digest size) gen)) w4 with ⟨r5, w5⟩
  simp only [h5] at hv
  cases r5 with
  | some e => simp at hv
  | none =>
  have q5 := cs_patchEAStatus env (applyEAPatched c name
    (archived (applyArtifact c name revision) digest size) gen) w4 (by rw [h5])
  rw [h5] at q5
  obtain ⟨-, q5s, ea5, q5e, q5st⟩ := q5
  simp only at q5s q5e
  simp only [run_call_bind] at hv ⊢
  have q6 := cs_patchKust env (applyKust c name) w5
  rcases h6 : clusterStep env (.patchKust (applyKust c name)) w5 with ⟨r6, w6⟩
  rw [h6] at q6
  simp only [h6] at hv
  obtain ⟨q6e, q6s⟩ := q6
  simp only at q6e q6s
  cases r6 with
  | some e => simp at hv
  | none =>
  simp only [run_call_bind] at hv ⊢
  rw [run_bind] at hv ⊢
  obtain ⟨i1, i2, -, -, i5⟩ := waitForCurrentStatus_cluster env (applyKust c name) revision w6
  cases hw : (run (clusterStep env) (waitForCurrentStatus (applyKust c name) revision) w6).val with
  | some e => simp [hw] at hv
  | none =>
  obtain ⟨k, hk⟩ := i5 hw
  generalize (run (clusterStep env) (waitForCurrentStatus (applyKust c name) revision) w6).world
    = w7 at *
  simp only [hw, run_call_bind] at hv ⊢
  have q8 := cs_garbageCollect env (archived (applyArtifact c name revision) digest size) 5 w7
  rcases h8 : clusterStep env (.garbageCollect
    (archived (applyArtifact c name revision) digest size) 5) w7 with ⟨r8, w8⟩
  rw [h8] at q8
  simp only [h8] at hv
  obtain ⟨q8k, q8e, q8s⟩ := q8
  simp only at q8k q8e q8s
  cases r8 with
  | some e => simp at hv
  | none =>
  simp only [run_pure]
  have hstore : w7.store = ((applyArtifact c name revision).path,
      (w1.tmp.filter (fun e => inDir tmpDir e.1)).map (fun e => (relTo tmpDir e.1, e.2))) ::
        w1.store.filter (fun e => e.1 ≠ (applyArtifact c name revision).path) := by
    rw [i2, q6s, q5s, q4s, q3s]
  refine ⟨ea5,
    (w1.tmp.filter (fun e => inDir tmpDir e.1)).map (fun e => (relTo tmpDir e.1, e.2)),
    ?_, ?_, ?_⟩
  · rw [q8e, i1, q6e]
    exact q5e
  · rw [q8s, findArchive_filter_keep _
      (fun p => p = (archived (applyArtifact c name revision) digest size).path ||
        !inDirOf (archived (applyArtifact c name revision) digest size).path p) _
      (by simp [archived]), hstore, findArchive_cons_filter]
    simp
  · rw [q5st]
    simp only at a3d a3s
    rw [← a3d, ← a3s]
    rfl

theorem Apply_cluster_recorded (env : Env) (c : FluxController) (name revision : String)
    (data : Bytes) (w : World) (hd : data ≠ []) (hn : name ≠ "") (hr : revision ≠ "")
    (hv : (run (cluster env) (Apply c name revision data) w).val = none) :
    ∃ ea files, findEA (run (cluster env)
        (Apply c name revision data) w).world.eas c.ns name = some ea ∧
      findArchive (run (cluster env) (Apply c name revision data) w).world.store
        (applyArtifact c name revision).path = some files ∧
      ea.status.artifact = some (archived (applyArtifact c name revision)
        (env.digest files) (env.size files)) := by
  have hok : ∀ ev ∈ (run (cluster env) (Apply c name revision data) w).trace, ev.err = none := by
    intro ev hev
    obtain ⟨_, _, a3, _⟩ := Apply_run (cluster env) w c name revision data hd hn hr
    cases hee : ev.err with
    | none => rfl
    | some e =>
      have := a3 ev hev e hee
      rw [hv] at this
      cases this
  rw [run_cluster_of_ok env _ w hok] at hv ⊢
  have hlen : data.length ≠ 0 := by simpa using hd
  simp only [Apply, hlen, hn, hr, ↓reduceIte, run_call_bind, cs_mkdirTemp, run_bind, run_pure,
    run_call, (cs_osRemoveAll env _ _).1, (cs_osRemoveAll env _ _).2.1,
    (cs_osRemoveAll env _ _).2.2] at hv ⊢
  exact applyBody_cluster_recorded env c name revision data _ _ hv

theorem splitSlash_mem_noSlash (p : List Char) : ∀ e ∈ splitSlash p, '/' ∉ e := by
  induction p with
  | nil => simp [splitSlash]
  | cons ch rest ih =>
    by_cases hc : ch = '/'
    · intro e he
      simp only [splitSlash, hc, ↓reduceIte, List.mem_cons] at he
      rcases he with h | h
      · rw [h]; simp
      · exact ih e h
    · cases hs : splitSlash rest with
      | nil => exact absurd hs (splitSlash_ne_nil rest)
      | cons e0 es =>
        rw [hs] at ih
        intro e he
        simp only [splitSlash, hc, ↓reduceIte, hs, List.mem_cons] at he
        rcases he with h | h
        · rw [h]
          intro hm
          rcases List.mem_cons.1 hm with h0 | h0
          · exact hc h0.symm
          · exact ih e0 (List.mem_cons_self _ _) h0
        · exact ih e (List.mem_cons_of_mem _ h)

theorem cleanStep_inv (rooted : Bool) (stack : List (List Char)) (e : List Char)
    (he : '/' ∉ e) (hst : ∀ x ∈ stack, x ≠ [] ∧ '/' ∉ x) :
    ∀ x ∈ cleanStep rooted stack e, x ≠ [] ∧ '/' ∉ x := by
  unfold cleanStep
  by_cases h1 : e = [] ∨ e = ['.']
  · simpa [h1] using hst
  · have hne : e ≠ [] := fun h => h1 (Or.inl h)
    have hpush : ∀ x ∈ e :: stack, x ≠ [] ∧ '/' ∉ x := by
      intro x hx
      rcases List.mem_cons.1 hx with h | h
      · rw [h]; exact ⟨hne, he⟩
      · exact hst x h
    rw [if_neg h1]
    by_cases h2 : e = ['.', '.']
    · rw [if_pos h2]
      cases stack with
      | nil =>
        cases rooted
        · simpa using hpush
        · simp
      | cons top rest =>
        by_cases h3 : top = ['.', '.']
        · simpa [h3] using hpush
        · simp only [h3, ↓reduceIte]
          exact fun x hx => hst x (List.mem_cons_of_mem _ hx)
    · rw [if_neg h2]
      exact hpush

theorem foldl_cleanStep_inv (rooted : Bool) (es stack : List (List Char))
    (hes : ∀ e ∈ es, '/' ∉ e) (hst : ∀ x ∈ stack, x ≠ [] ∧ '/' ∉ x) :
    ∀ x ∈ es.foldl (cleanStep rooted) stack, x ≠ [] ∧ '/' ∉ x := by
  induction es generalizing stack with
  | nil => simpa using hst
  | cons e rest ih =>
    simp only [List.foldl_cons]
    exact ih _ (fun x hx => hes x (List.mem_cons_of_mem _ hx))
      (cleanStep_inv rooted stack e (hes e (List.mem_cons_self _ _)) hst)

theorem joinSlash_head_ne (es : List (List Char)) (hne : es ≠ [])
    (hall : ∀ e ∈ es, e ≠ [] ∧ '/' ∉ e) :
    joinSlash es ≠ [] ∧ (joinSlash es).head? ≠ some '/' := by
  cases es with
  | nil => exact absurd rfl hne
  | cons e rest =>
    obtain ⟨h1, h2⟩ := hall e (by simp)
    cases e with
    | nil => exact absurd rfl h1
    | cons ch cs =>
      have hc : ch ≠ '/' := fun h => h2 (by simp [h])
      cases rest <;> simp [joinSlash, hc]

/-- A cleaned relative path is not empty and does not start with a slash. -/
theorem pathClean_rel (p : String) (hp : p.data.head? ≠ some '/') :
    (pathClean p).data ≠ [] ∧ (pathClean p).data.head? ≠ some '/' := by
  unfold pathClean
  by_cases h0 : p.data = []
  · rw [if_pos h0]; decide
  · rw [if_neg h0]
    simp only [hp, decide_False, Bool.false_eq_true, ↓reduceIte]
    by_cases hb : joinSlash ((splitSlash p.data).foldl (cleanStep false) []).reverse = []
    · rw [if_pos hb]; decide
    · rw [if_neg hb]
      have hst := foldl_cleanStep_inv false (splitSlash p.data) []
        (splitSlash_mem_noSlash p.data) (by simp)
      have hne : ((splitSlash p.data).foldl (cleanStep false) []).reverse ≠ [] := by
        intro h
        rw [h] at hb
        exact hb rfl
      exact joinSlash_head_ne _ hne (fun e he => hst e (List.mem_reverse.1 he))

/-- The artifact path of `Apply` is not empty and does not start with a slash. -/
theorem applyArtifact_path_rel (c : FluxController) (name revision : String) :
    (applyArtifact c name revision).path.data ≠ [] ∧
    (applyArtifact c name revision).path.data.head? ≠ some '/' := by
  rw [applyArtifact_path]
  unfold pathJoinList
  have hf : (["confighub", c.ns, name, revision ++ ".tar.gz"].map String.data).filter
      (fun e => e ≠ []) =
      "confighub".data :: ([c.ns, name, revision ++ ".tar.gz"].map String.data).filter
        (fun e => e ≠ []) := by
    rw [List.map_cons, List.filter_cons_of_pos (by decide)]
  simp only [hf]
  rw [if_neg (by simp)]
  apply pathClean_rel
  cases hrest : ([c.ns, name, revision ++ ".tar.gz"].map String.data).filter
      (fun e => e ≠ []) with
  | nil => decide
  | cons e es => simp [joinSlash]

/-- The URL of the artifact of `Apply`: the host name, after `http://` unless
it carries a scheme, a slash, and the artifact's path. -/
theorem applyArtifact_url (c : FluxController) (name revision : String) :
    (applyArtifact c name revision).url =
      (if hasScheme c.hostname then c.hostname else "http://" ++ c.hostname) ++ "/" ++
        (applyArtifact c name revision).path := by
  obtain ⟨h1, h2⟩ := applyArtifact_path_rel c name revision
  have hne : (applyArtifact c name revision).path ≠ "" := by
    intro h
    rw [h] at h1
    exact h1 rfl
  have htrim : trimLeftSlash (applyArtifact c name revision).path =
      (applyArtifact c name revision).path := by
    unfold trimLeftSlash
    cases hd : (applyArtifact c name revision).path.data with
    | nil => exact absurd hd h1
    | cons ch rest =>
      rw [hd] at h2
      have hc : ch ≠ '/' := by simpa using h2
      apply String.ext
      simp [List.dropWhile, hc, hd]
  show artifactURL c.hostname (applyArtifact c name revision).path = _
  unfold artifactURL
  rw [if_neg hne, htrim]
  by_cases hs : hasScheme c.hostname = true
  · simp [hs]
  · simp [hs]

theorem hexDigit_mem (n : Nat) : hexDigit n ∈ "0123456789abcdef".data := by
  unfold hexDigit
  rcases Nat.lt_or_ge n 16 with h | h
  · interval_cases n <;> decide
  · rw [List.getD_eq_default _ _ (by simpa using h)]
    decide

/-- The hexadecimal text of bytes holds hexadecimal digits only, two a byte. -/
theorem hexOf_digits (bs : Bytes) :
    (∀ ch ∈ (hexOf bs).data, ch ∈ "0123456789abcdef".data) ∧
    (hexOf bs).data.length = 2 * bs.length := by
  unfold hexOf
  induction bs with
  | nil => simp
  | cons b rest ih =>
    obtain ⟨i1, i2⟩ := ih
    constructor
    · intro ch hch
      simp only [List.flatMap_cons, List.cons_append, List.nil_append, List.mem_cons] at hch
      rcases hch with h | h | h
      · rw [h]; exact hexDigit_mem _
      · rw [h]; exact hexDigit_mem _
      · exact i1 ch h
    · simp only [List.flatMap_cons, List.cons_append, List.nil_append, List.length_cons] at i2 ⊢
      omega

/-- C11 as stated fails where the namespace is not `confighub`: the recorded
path puts the owner `confighub` first and the namespace second, here
`confighub/prod/foo/dev-1.tar.gz`, not `prod/confighub/foo/dev-1.tar.gz`. The
path is also cleaned, so that it is not of the stated form for every revision
(revision `x/../y` is recorded under `y.tar.gz`), and a host name that carries
a scheme is not given a second one. -/
theorem Apply_path_owner_first :
    (run (cluster {}) (Apply prodController "foo" "dev-1" helloWorld) {}).val = none ∧
    ((findEA (run (cluster {}) (Apply prodController "foo" "dev-1" helloWorld) {}).world.eas
        "prod" "foo").bind (fun ea => ea.status.artifact)).map (fun a => a.path) =
      some "confighub/prod/foo/dev-1.tar.gz" ∧
    "confighub/prod/foo/dev-1.tar.gz" ≠
      "prod" ++ "/" ++ "confighub" ++ "/" ++ "foo" ++ "/" ++ "dev-1" ++ ".tar.gz" ∧
    (run (cluster {}) (Apply testController "foo" "x/../y" helloWorld) {}).val = none ∧
    ((findEA (run (cluster {}) (Apply testController "foo" "x/../y" helloWorld) {}).world.eas
        "confighub" "foo").bind (fun ea => ea.status.artifact)).map (fun a => a.path) =
      some "confighub/confighub/foo/y.tar.gz" ∧
    (run (cluster {}) (Apply { ns := "confighub", hostname := "https://cdn.example" }
      "foo" "dev-1" helloWorld) {}).val = none ∧
    ((findEA (run (cluster {}) (Apply { ns := "confighub", hostname := "https://cdn.example" }
        "foo" "dev-1" helloWorld) {}).world.eas
        "confighub" "foo").bind (fun ea => ea.status.artifact)).map (fun a => a.url) =
      some "https://cdn.example/confighub/confighub/foo/dev-1.tar.gz" := by
  decide

/-- C11, amended. In the cluster, after a successful `Apply` on a controller of
namespace `ns`, the ExternalArtifact's status holds an artifact whose revision
is the given one; whose path is the library's `path.Join` of the owner
`confighub`, the namespace, the name and `<revision>.tar.gz`, which is
`confighub/<ns>/<name>/<revision>.tar.gz` when namespace and name are plain
path elements and the revision holds no slash; whose URL is `http://`, the
storage's host name, a slash and that path (without the `http://` when the
host name carries a scheme); whose digest is `sha256:` followed by the
hexadecimal text of the SHA-256 hash of the archive file stored under that
path; and whose size is the number of bytes of that file. Path and URL depend
on nothing but the controller's namespace and host name, the name and the
revision. -/
theorem Apply_records_artifact (env : Env) (c : FluxController) (name revision : String)
    (data : Bytes) (w : World) (hd : data ≠ []) (hn : name ≠ "") (hr : revision ≠ "")
    (hv : (run (cluster env) (Apply c name revision data) w).val = none) :
    ∃ ea artifact files,
      findEA (run (cluster env) (Apply c name revision data) w).world.eas c.ns name =
        some ea ∧
      ea.status.artifact = some artifact ∧
      artifact.revision = revision ∧
      artifact.path = pathJoinList ["confighub", c.ns, name, revision ++ ".tar.gz"] ∧
      (plainElem c.ns → plainElem name → '/' ∉ revision.data →
        artifact.path =
          "confighub" ++ "/" ++ c.ns ++ "/" ++ name ++ "/" ++ revision ++ ".tar.gz") ∧
      artifact.url =
        (if hasScheme c.hostname then c.hostname else "http://" ++ c.hostname) ++ "/" ++
          artifact.path ∧
      findArchive (run (cluster env) (Apply c name revision data) w).world.store
        artifact.path = some files ∧
      (∃ hex : String, artifact.digest = "sha256:" ++ hex ∧
        hex = hexOf (env.sha256 (env.tarGz files)) ∧
        (∀ ch ∈ hex.data, ch ∈ "0123456789abcdef".data) ∧
        hex.data.length = 2 * (env.sha256 (env.tarGz files)).length) ∧
      artifact.size = some (env.tarGz files).length := by
  obtain ⟨ea, files, f1, f2, f3⟩ := Apply_cluster_recorded env c name revision data w hd hn hr hv
  refine ⟨ea, _, files, f1, f3, rfl, applyArtifact_path c name revision, ?_,
    applyArtifact_url c name revision, f2,
    ⟨_, rfl, rfl, (hexOf_digits _).1, (hexOf_digits _).2⟩, rfl⟩
  intro hns hnm hrs
  show (applyArtifact c name revision).path = _
  rw [applyArtifact_path_plain c name revision hns hnm hrs]
  simp [String.append_assoc]

/-- C11, amended, at the first `Apply` of the test: the path is
`confighub/confighub/foo/dev-1.tar.gz` and the URL that path after
`http://localhost:8080/`. -/
theorem Apply_records_artifact_witness :
    ∃ ea artifact,
      findEA (run (cluster {}) (Apply testController "foo" "dev-1" helloWorld) {}).world.eas
        "confighub" "foo" = some ea ∧
      ea.status.artifact = some artifact ∧
      artifact.path = "confighub/confighub/foo/dev-1.tar.gz" ∧
      artifact.url = "http://localhost:8080/confighub/confighub/foo/dev-1.tar.gz" :=
  let ⟨ea, artifact, _, f1, f2, _, f4, _, f6, _⟩ :=
    Apply_records_artifact {} testController "foo" "dev-1" helloWorld {}
      (by decide) (by decide) (by decide) (by decide)
  ⟨ea, artifact, f1, f2, f4.trans (by decide), f6.trans (by rw [f4]; decide)⟩

end FluxBridge
